import Mathlib

/-!
A verification development for a chunked file-storage engine
(`run.py`): files are split into 1024-byte parts, each part is
compressed and hashed by a worker pool under a memory-admission
counter; in-memory registries track files and their ordered part
sequences.

The Python program is shallowly embedded.  The mutable registries, the
admission counter and the parts-directory content form an explicit
state record.  `threading` lock acquisitions and `wait_for` waits,
whose success is not determined by this state (it depends on timing
and contention), are driven by boolean oracles (`true` means the
acquisition succeeded within its 5-second bound), and worker-pool or
file-open exceptions by a further oracle (`true` means no exception
was raised).  The compression, decompression and digest functions
(`zlib.compress`, `zlib.decompress`, `hashlib.md5().hexdigest()`) are
external library calls and enter the embedding as function parameters.
Loops whose exit is oracle-dependent take a fuel argument; exhausting
the fuel is reported as a distinguished `outOfFuel` outcome (the real
program would still be looping, not returning).
-/

namespace FSS

/-- `self.part_size = 1024` (run.py line 54). -/
def part_size : Nat := 1024

/-- `self.batch_size = 10` (run.py line 55). -/
def batch_size : Nat := 10

/-- Bytes reserved per batch: `self.part_size * self.batch_size`
(run.py lines 123, 216). -/
def needed_memory : Nat := part_size * batch_size

/-- run.py `File` (lines 11-16). -/
structure File where
  id : Nat
  name : String
  status : Bool
  part_count : Nat
deriving DecidableEq

/-- The derived part path `f"{parent_id}_{index}.PART"` (run.py line 30). -/
def partPath (parent idx : Nat) : String :=
  Nat.repr parent ++ "_" ++ Nat.repr idx ++ ".PART"

/-- run.py `FilePart` (lines 26-33); `path` is computed in the
constructor from `parent_id` and `index`. -/
structure FilePart where
  id : Nat
  parent_id : Nat
  path : String
  hash : Option String
  status : Bool
  index : Nat
deriving DecidableEq, Inhabited

/-- The `FilePart` constructor (run.py lines 27-33). -/
def mkFilePart (pid parent : Nat) (h : Option String) (stat : Bool) (idx : Nat) : FilePart :=
  ⟨pid, parent, partPath parent idx, h, stat, idx⟩

/-- Global mutable state: the file registry and its id counter
(run.py 19-23), the part registry and its id counter (36-40), the
admission counter and its limit (64-65, 50), and the byte content of
the parts directory on disk, keyed by path. -/
structure SysState where
  fileNext : Nat
  files : Nat → Option File
  partNext : Nat
  parts : Nat → Option (List FilePart)
  memUsage : Int
  memLimit : Int
  disk : String → Option (List Nat)

def updFiles (st : SysState) (k : Nat) (v : Option File) : SysState :=
  { st with files := fun g => if g = k then v else st.files g }

def updParts (st : SysState) (k : Nat) (v : Option (List FilePart)) : SysState :=
  { st with parts := fun g => if g = k then v else st.parts g }

def updDisk (st : SysState) (p : String) (v : Option (List Nat)) : SysState :=
  { st with disk := fun q => if q = p then v else st.disk q }

/-- `self.memory_usage += needed_memory` (run.py lines 129, 222). -/
def memGrant (st : SysState) : SysState :=
  { st with memUsage := st.memUsage + (needed_memory : Int) }

/-- `self.memory_usage -= needed_memory` (run.py lines 142, 173, 188,
241, 251, 263). -/
def memRelease (st : SysState) : SysState :=
  { st with memUsage := st.memUsage - (needed_memory : Int) }

/-- The admission predicate of `wait_for`:
`self.memory_usage + needed_memory < self.memory_limit`
(run.py lines 126, 219). -/
def memPred (st : SysState) : Bool :=
  decide (st.memUsage + (needed_memory : Int) < st.memLimit)

/-- Effect of `save_file` (run.py 315-320) over one staged batch, as
dispatched by `io.starmap` (164): for each `(data, path)` item the
compressed bytes are written at `path`. -/
def saveBatch (compF : List Nat → List Nat) : SysState → List (List Nat × String) → SysState
  | st, [] => st
  | st, (data, p) :: rest => saveBatch compF (updDisk st p (some (compF data))) rest

/-- Return values of `save_file` over a batch (run.py 316, 320): the
md5 digest of each item's uncompressed bytes, in item order. -/
def savedHashes (md5F : List Nat → String) (batch : List (List Nat × String)) : List String :=
  batch.map (fun pr => md5F pr.1)

/-- In-place update of the list element at a position (a Python
`lst[i].field = v` mutation). -/
def modifyIdx : List FilePart → Nat → (FilePart → FilePart) → List FilePart
  | [], _, _ => []
  | x :: xs, 0, f => f x :: xs
  | x :: xs, n+1, f => x :: modifyIdx xs n f

/-- run.py lines 166-168: for each staged part, record its digest and
mark it written, updating the registry entry at position `part.index`
of the file's sequence. -/
def setHashes (fid : Nat) : SysState → List (FilePart × String) → SysState
  | st, [] => st
  | st, (fp, h) :: rest =>
    setHashes fid
      (updParts st fid (some (modifyIdx ((st.parts fid).getD []) fp.index
        (fun q => { q with hash := some h, status := true })))) rest

/-- Result of the inner item loop of put (run.py 136-162). -/
inductive ItemsRes where
  | ok (st : SysState) (k : Nat) (rem : List Nat) (index : Nat)
      (batch : List (List Nat × String)) (staged : List FilePart) (finished : Bool)
  | abortReleased (st : SysState) (k : Nat)
  | abortLeaked (st : SysState) (k : Nat)

/-- The inner `for i in range(self.batch_size)` loop of the put
pipeline (run.py 136-162): acquire the part-id lock (137; on timeout,
lines 138-146 try to release the batch's reservation — itself an
acquisition that can time out, in which case the memory stays locked)
and allocate a part id (147-149); read the next chunk (151), an empty
read ending the file (153-155); otherwise register the raw part
(157-159) and stage its bytes and path (161-162). -/
def putItems (dir : String) (fid : Nat) (oLock oMem : Nat → Bool) :
    Nat → SysState → Nat → List Nat → Nat →
    List (List Nat × String) → List FilePart → ItemsRes
  | 0, st, k, rem, index, batch, staged => .ok st k rem index batch staged false
  | i+1, st, k, rem, index, batch, staged =>
    if oLock k then
      let pid := st.partNext
      let st1 := { st with partNext := pid + 1 }
      match rem with
      | [] => .ok st1 (k+1) [] index batch staged true
      | _ :: _ =>
        let chunk := rem.take part_size
        let fp := mkFilePart pid fid none false index
        let st2 := updParts st1 fid (some ((st1.parts fid).getD [] ++ [fp]))
        putItems dir fid oLock oMem i st2 (k+1) (rem.drop part_size) (index+1)
          (batch ++ [(chunk, dir ++ fp.path)]) (staged ++ [fp])
    else
      if oMem (k+1) then .abortReleased (memRelease st) (k+2)
      else .abortLeaked st (k+2)

inductive PutOutcome where
  | completed
  | fileIdLockTimeout
  | partIdLockTimeout
  | releaseFailLeak
  | excAbort
  | outOfFuel
deriving DecidableEq

structure PutOut where
  outcome : PutOutcome
  st : SysState
  k : Nat

/-- run.py lines 178-179: record the part count and mark the file
complete (both registry entries exist at this point in the flow). -/
def finishPut (st : SysState) (fid : Nat) : SysState :=
  match st.files fid, st.parts fid with
  | some f, some ps => updFiles st fid (some { f with status := true, part_count := ps.length })
  | _, _ => st

/-- The `while not file_finished` loop of the put pipeline (run.py
122-180).  Per round: acquire the admission monitor (124; timeout
retries), wait for the admission predicate (126; timeout retries),
reserve a batch of memory (129), run the item loop (136-162), dispatch
the staged batch to the pool (164; the exception oracle `e` models a
pool/IO failure, handled at 181-190), record digests (166-168), and
release the reservation (170-176; an acquisition timeout at 170 skips
the release and continues the loop, leaking the reservation).  On
normal exit the file is finished (178-180). -/
def putLoop (compF : List Nat → List Nat) (md5F : List Nat → String) (dir : String)
    (oMem oLock e : Nat → Bool) (fid : Nat) :
    Nat → SysState → Nat → List Nat → Nat → PutOut
  | 0, st, k, _, _ => ⟨.outOfFuel, st, k⟩
  | fuel+1, st, k, rem, index =>
    if oMem k then
      if memPred st then
        let st1 := memGrant st
        match putItems dir fid oLock oMem batch_size st1 (k+1) rem index [] [] with
        | .abortReleased st2 k2 => ⟨.partIdLockTimeout, st2, k2⟩
        | .abortLeaked st2 k2 => ⟨.releaseFailLeak, st2, k2⟩
        | .ok st2 k2 rem2 index2 batch staged fin =>
          if e k2 then
            let st3 := saveBatch compF st2 batch
            let st4 := setHashes fid st3 (staged.zip (savedHashes md5F batch))
            if oMem (k2+1) then
              let st5 := memRelease st4
              if fin then ⟨.completed, finishPut st5 fid, k2+2⟩
              else putLoop compF md5F dir oMem oLock e fid fuel st5 (k2+2) rem2 index2
            else
              if fin then ⟨.completed, finishPut st4 fid, k2+2⟩
              else putLoop compF md5F dir oMem oLock e fid fuel st4 (k2+2) rem2 index2
          else
            if oMem (k2+1) then ⟨.excAbort, memRelease st2, k2+2⟩
            else ⟨.releaseFailLeak, st2, k2+2⟩
      else putLoop compF md5F dir oMem oLock e fid fuel st (k+1) rem index
    else putLoop compF md5F dir oMem oLock e fid fuel st (k+1) rem index

/-- `handle_put_command` (run.py 97-190) for a well-formed command:
acquire the file-id lock and allocate a file id (105-111), register
the file with `status=False` (113-114), open the source (118; oracle
`e` at 1 models an unreadable source, caught at 181-184 with no memory
held), initialise the file's empty part sequence (121) and run the
batch loop.  `content` is the byte content of the source file. -/
def putCmd (compF : List Nat → List Nat) (md5F : List Nat → String)
    (dir name : String) (content : List Nat)
    (oMem oLock e : Nat → Bool) (fuel : Nat) (st : SysState) : PutOut :=
  if oLock 0 then
    let fid := st.fileNext
    let st1 := { st with fileNext := fid + 1 }
    let st2 := updFiles st1 fid (some ⟨fid, name, false, 0⟩)
    if e 1 then
      let st3 := updParts st2 fid (some [])
      putLoop compF md5F dir oMem oLock e fid fuel st3 2 content 0
    else ⟨.excAbort, st2, 2⟩
  else ⟨.fileIdLockTimeout, st, 1⟩

inductive GetOutcome where
  | completed
  | notFound
  | notReady
  | partsKeyError
  | mismatchAbort
  | excAbort
  | releaseFailLeak
  | outOfFuel
deriving DecidableEq

structure GetOut where
  outcome : GetOutcome
  st : SysState
  written : List Nat
  k : Nat

/-- Effect of `read_file` (run.py 323-330) over one batch of
`(expected_hash, path)` items, as dispatched by `io.starmap` (232):
reading a missing path raises (`none` result, caught at 256-265);
otherwise each item yields `(ok, data)` where `ok` compares the
recorded digest with the digest of the decompressed bytes and a
mismatch carries no data (`return False, None`). -/
def readBatch (decompF : List Nat → List Nat) (md5F : List Nat → String)
    (disk : String → Option (List Nat)) :
    List (Option String × String) → Option (List (Bool × List Nat))
  | [] => some []
  | (h, p) :: rest =>
    match disk p with
    | none => none
    | some c =>
      match readBatch decompF md5F disk rest with
      | none => none
      | some rs =>
        some ((if h = some (md5F (decompF c)) then (true, decompF c) else (false, [])) :: rs)

/-- run.py lines 234-246: walk one batch's results in order, appending
the decompressed bytes of each verified part to the destination;
the first `ok=False` stops the walk (integrity failure). -/
def writeLoop : List (Bool × List Nat) → List Nat → Bool × List Nat
  | [], w => (true, w)
  | (ok, d) :: rest, w => if ok then writeLoop rest (w ++ d) else (false, w)

/-- The `while index*self.batch_size < len(file_parts)` loop of the
get pipeline (run.py 215-254): per batch, acquire the admission
monitor (217; timeout retries), wait for the admission predicate (219;
timeout retries), reserve (222), slice the batch (226-229), dispatch
`read_file` (232), process results (234-246; a mismatch releases — if
the acquisition at 238 succeeds — and aborts), and release (248-254;
an acquisition timeout at 248 skips the release and continues). -/
def getLoop (decompF : List Nat → List Nat) (md5F : List Nat → String) (dir : String)
    (oMem e : Nat → Bool) (ps : List FilePart) :
    Nat → SysState → Nat → Nat → List Nat → GetOut
  | 0, st, k, _, w => ⟨.outOfFuel, st, w, k⟩
  | fuel+1, st, k, index, w =>
    if index * batch_size < ps.length then
      if oMem k then
        if memPred st then
          let st1 := memGrant st
          let start := index * batch_size
          let stop := if (index+1) * batch_size < ps.length then (index+1) * batch_size
                      else ps.length
          let batch := ((ps.drop start).take (stop - start)).map (fun p => (p.hash, dir ++ p.path))
          if e (k+1) then
            match readBatch decompF md5F st1.disk batch with
            | none =>
              if oMem (k+2) then ⟨.excAbort, memRelease st1, w, k+3⟩
              else ⟨.releaseFailLeak, st1, w, k+3⟩
            | some rs =>
              match writeLoop rs w with
              | (false, w2) =>
                if oMem (k+2) then ⟨.mismatchAbort, memRelease st1, w2, k+3⟩
                else ⟨.releaseFailLeak, st1, w2, k+3⟩
              | (true, w2) =>
                if oMem (k+2) then
                  getLoop decompF md5F dir oMem e ps fuel (memRelease st1) (k+3) (index+1) w2
                else getLoop decompF md5F dir oMem e ps fuel st1 (k+3) (index+1) w2
          else
            if oMem (k+2) then ⟨.excAbort, memRelease st1, w, k+3⟩
            else ⟨.releaseFailLeak, st1, w, k+3⟩
        else getLoop decompF md5F dir oMem e ps fuel st (k+1) index w
      else getLoop decompF md5F dir oMem e ps fuel st (k+1) index w
    else ⟨.completed, st, w, k⟩

/-- `handle_get_command` (run.py 193-265) for a well-formed command:
look up the file (203-205), require `status=True` (207-209), fetch the
part sequence (210; a missing registry key would raise uncaught),
open the destination (214; oracle `e` at 0 models an open failure,
caught at 256-259 with no memory held) and run the batch loop.
`written` collects the bytes written to the destination. -/
def getCmd (decompF : List Nat → List Nat) (md5F : List Nat → String) (dir : String)
    (oMem e : Nat → Bool) (fuel : Nat) (st : SysState) (fid : Nat) : GetOut :=
  match st.files fid with
  | none => ⟨.notFound, st, [], 0⟩
  | some f =>
    if f.status then
      match st.parts fid with
      | none => ⟨.partsKeyError, st, [], 0⟩
      | some ps =>
        if e 0 then getLoop decompF md5F dir oMem e ps fuel st 1 0 []
        else ⟨.excAbort, st, [], 1⟩
    else ⟨.notReady, st, [], 0⟩

inductive DelOutcome where
  | completed
  | notFound
  | notReady
  | partsKeyError
deriving DecidableEq

/-- run.py lines 293-294: mark the sequence entries at positions
`start <= j < stop` as no longer durably stored (the walk starts at
position `j`). -/
def setFalseFrom : Nat → Nat → Nat → List FilePart → List FilePart
  | _, _, _, [] => []
  | j, start, stop, p :: rest =>
    (if start ≤ j ∧ j < stop then { p with status := false } else p) ::
      setFalseFrom (j+1) start stop rest

/-- `delete_file` (run.py 333-338) over one batch of paths via
`io.map` (295): removal of a path succeeds exactly when a file exists
there; a missing file yields `False` for that item and never raises. -/
def removeBatch : SysState → List String → SysState × List Bool
  | st, [] => (st, [])
  | st, p :: rest =>
    match st.disk p with
    | some _ =>
      let r := removeBatch (updDisk st p none) rest
      (r.1, true :: r.2)
    | none =>
      let r := removeBatch st rest
      (r.1, false :: r.2)

/-- run.py lines 296-300: walk the batch results in order; for the
`i`-th result a success erases the sequence entry at position
`index*batch_size + len(result) - i - 1`.  As `i` grows by one this
position falls by one, so it is threaded directly as `p`. -/
def deleteEraseFold : List FilePart → Nat → List Bool → List FilePart
  | l, _, [] => l
  | l, p, r :: rest => deleteEraseFold (if r then l.eraseIdx p else l) (p - 1) rest

/-- One round of the delete loop at batch index `index` (run.py
289-301): slice the current sequence (289-291), build the path batch
(292), clear the parts' status flags (293-294), remove the files
(295) and erase the sequence entries of successful removals
(296-300). -/
def deleteBatchStep (dir : String) (fid : Nat) (index : Nat) (st : SysState) : SysState :=
  let ps := (st.parts fid).getD []
  let start := index * batch_size
  let stop := if (index+1) * batch_size < ps.length then (index+1) * batch_size else ps.length
  let batch := ((ps.drop start).take (stop - start)).map (fun p => dir ++ p.path)
  let st1 := updParts st fid (some (setFalseFrom 0 start stop ps))
  let rb := removeBatch st1 batch
  let ps2 := (rb.1.parts fid).getD []
  updParts rb.1 fid (some (deleteEraseFold ps2 (start + rb.2.length - 1) rb.2))

/-- The `while index >= 0` loop of the delete pipeline (run.py
288-301): batches are processed from the highest batch index downward
to 0. -/
def deleteLoop (dir : String) (fid : Nat) : Nat → SysState → SysState
  | 0, st => deleteBatchStep dir fid 0 st
  | i+1, st => deleteLoop dir fid i (deleteBatchStep dir fid (i+1) st)

/-- `handle_delete_command` (run.py 267-304) for a well-formed
command: look up the file (277-279), require `status=True` (281-283),
mark it not ready (284), fetch the part sequence (285), run the
reverse batch loop from batch index `len(file_parts) // batch_size`
(286-301), and finally erase the file from the file registry (302). -/
def deleteCmd (dir : String) (fid : Nat) (st : SysState) : DelOutcome × SysState :=
  match st.files fid with
  | none => (.notFound, st)
  | some f =>
    if f.status then
      let st1 := updFiles st fid (some { f with status := false })
      match st1.parts fid with
      | none => (.partsKeyError, st1)
      | some ps =>
        let st2 := deleteLoop dir fid (ps.length / batch_size) st1
        (.completed, updFiles st2 fid none)
    else (.notReady, st)

/-- A fresh engine state: empty registries, counters at 0, no memory
reserved (run.py 19-23, 36-40, 64-65), an empty parts directory, and
the configured limit in bytes (50). -/
def initState (limit : Int) : SysState :=
  { fileNext := 0, files := fun _ => none, partNext := 0, parts := fun _ => none,
    memUsage := 0, memLimit := limit, disk := fun _ => none }

/-! ### Concrete instantiations used to evaluate the model on small inputs -/

/-- A toy invertible compression (prepends a byte), standing in for
`zlib.compress` in concrete evaluations. -/
def comp0 (l : List Nat) : List Nat := 0 :: l

/-- Inverse of `comp0`, standing in for `zlib.decompress`. -/
def dec0 (l : List Nat) : List Nat := l.tail

/-- A toy digest (decimal sum of the bytes), standing in for md5 in
concrete evaluations. -/
def md0 (l : List Nat) : String := Nat.repr (l.foldl (fun a b => a + b) 0)

/-- The oracle under which every lock acquisition and wait succeeds and
no exception is raised. -/
def allT : Nat → Bool := fun _ => true

/-- A memory-monitor oracle that succeeds only at consumption point 2:
the acquisition guarding the release inside the part-id-timeout branch
(run.py line 139) then times out. -/
def oMemC3 : Nat → Bool := fun n => n == 2

/-- A lock oracle under which the file-id lock succeeds but the first
part-id acquisition (run.py line 137) times out. -/
def oLockC3 : Nat → Bool := fun n => n == 0

/-- A memory-monitor oracle for get that succeeds at the batch
reservation (point 1) but times out at the release on the mismatch
abort path (run.py line 238). -/
def oMemC5 : Nat → Bool := fun n => n == 1

/-- A state holding one complete two-part file whose first part file
exists on disk and whose second part file is missing. -/
def stC2 : SysState :=
  { fileNext := 1,
    files := fun g => if g = 0 then some ⟨0, "f", true, 2⟩ else none,
    partNext := 102,
    parts := fun g => if g = 0 then
        some [mkFilePart 100 0 (some "h0") true 0, mkFilePart 101 0 (some "h1") true 1]
      else none,
    memUsage := 0, memLimit := 1000000,
    disk := fun p => if p = "d" ++ partPath 0 0 then some [9] else none }

/-- A state holding one complete one-part file whose stored part bytes
do not match the recorded digest (a corrupted part). -/
def stC5 : SysState :=
  { fileNext := 1,
    files := fun g => if g = 0 then some ⟨0, "f", true, 1⟩ else none,
    partNext := 1,
    parts := fun g => if g = 0 then some [mkFilePart 0 0 (some "zz") true 0] else none,
    memUsage := 0, memLimit := 1000000,
    disk := fun p => if p = "d" ++ partPath 0 0 then some [7] else none }

/-! ### Specification-side functions (reference values for theorems) -/

/-- Splitting a byte sequence into `part_size` chunks, via a fuel that
the length bounds (the reference value of the sequence of `read`
calls at run.py line 151). -/
def chunksOfAux : Nat → List Nat → List (List Nat)
  | 0, _ => []
  | _, [] => []
  | f+1, c :: cs => (c :: cs).take part_size :: chunksOfAux f ((c :: cs).drop part_size)

def chunksOf (c : List Nat) : List (List Nat) :=
  chunksOfAux c.length c

def concatL : List (List Nat) → List Nat
  | [] => []
  | c :: cs => c ++ concatL cs

/-- `natRange a n = [a, a+1, ..., a+n-1]`. -/
def natRange : Nat → Nat → List Nat
  | _, 0 => []
  | a, c+1 => a :: natRange (a+1) c

/-- Map a function over `natRange a n`. -/
def sliceMap (f : Nat → List Nat) : Nat → Nat → List (List Nat)
  | _, 0 => []
  | a, c+1 => f a :: sliceMap f (a+1) c

/-- The finalized part sequence a completed put stores for chunks
`cs`, with part ids from `pid` and indices from `idx`. -/
def putSpecParts (md5F : List Nat → String) (fid : Nat) :
    Nat → Nat → List (List Nat) → List FilePart
  | _, _, [] => []
  | pid, idx, c :: cs =>
    ⟨pid, fid, partPath fid idx, some (md5F c), true, idx⟩ ::
      putSpecParts md5F fid (pid+1) (idx+1) cs

/-- The raw (pre-save) part entries the item loop appends for chunks
`cs`. -/
def rawParts (fid : Nat) : Nat → Nat → List (List Nat) → List FilePart
  | _, _, [] => []
  | pid, idx, _ :: cs => mkFilePart pid fid none false idx :: rawParts fid (pid+1) (idx+1) cs

/-- The staged `(bytes, path)` pairs the item loop builds for chunks
`cs` with indices from `idx`. -/
def stagePairs (dir : String) (fid : Nat) : Nat → List (List Nat) → List (List Nat × String)
  | _, [] => []
  | idx, c :: cs => (c, dir ++ partPath fid idx) :: stagePairs dir fid (idx+1) cs

/-- Reference value of `deleteEraseFold`: each result consumes the
last element of the batch slice `s`; a success (`true`) drops it, a
failure keeps it. -/
def keepAfter : List FilePart → List Bool → List FilePart
  | s, [] => s
  | s, r :: rs =>
    if r then keepAfter s.dropLast rs
    else keepAfter s.dropLast rs ++ [s.getLastD default]

/-- An atomic action on the admission counter: each granted
reservation or release happens while holding the monitor (run.py
124-131, 170-176 and the get/abort variants), so a concurrent history
is a sequence of these events. -/
inductive MemEvent where
  | reserve (amt : Int)
  | release (amt : Int)

def MemEvent.amt : MemEvent → Int
  | .reserve a => a
  | .release a => a

/-- One atomic admission-counter transition: a reservation is granted
only when `usage + amt < limit` (the `wait_for` predicate, run.py
126/219, checked under the monitor) and then adds `amt` (129/222); an
ungranted reservation leaves the counter unchanged (the caller keeps
waiting); a release subtracts `amt` (173/251 and abort paths). -/
def memCtrlStep (limit u : Int) : MemEvent → Int
  | .reserve a => if u + a < limit then u + a else u
  | .release a => u - a

/-- The trace of admission-counter values along a history of events,
starting from `u` (the initial value is included). -/
def memCtrlTrace (limit : Int) : Int → List MemEvent → List Int
  | u, [] => [u]
  | u, ev :: evs => u :: memCtrlTrace limit (memCtrlStep limit u ev) evs

/-! ### Decimal representation: `Nat.repr` is injective

Needed because distinct part indices must yield distinct on-disk
paths (`f"{parent_id}_{index}.PART"`), which is what keeps one put's
part files from overwriting each other. -/

def charVal (c : Char) : Nat := c.toNat - 48

def digitsValFrom (a : Nat) (l : List Char) : Nat :=
  l.foldl (fun x c => x * 10 + charVal c) a

lemma charVal_digitChar {d : Nat} (h : d < 10) : charVal (Nat.digitChar d) = d := by
  interval_cases d <;> rfl

lemma digitsValFrom_cons (a : Nat) (c : Char) (l : List Char) :
    digitsValFrom a (c :: l) = digitsValFrom (a * 10 + charVal c) l := rfl

lemma toDigitsCore_val : ∀ (f n : Nat) (acc : List Char), n < f →
    digitsValFrom 0 (Nat.toDigitsCore 10 f n acc) = digitsValFrom n acc := by
  intro f
  induction f with
  | zero => intro n acc h; omega
  | succ f ih =>
    intro n acc h
    show digitsValFrom 0 (Nat.toDigitsCore 10 (f+1) n acc) = digitsValFrom n acc
    rw [Nat.toDigitsCore]
    by_cases h10 : n / 10 = 0
    · simp only [h10, if_true]
      rw [digitsValFrom_cons, charVal_digitChar (Nat.mod_lt n (by omega))]
      have hn : n % 10 = n := by omega
      rw [hn, Nat.zero_mul, Nat.zero_add]
    · rw [if_neg h10]
      rw [ih (n / 10) _ (by omega)]
      rw [digitsValFrom_cons, charVal_digitChar (Nat.mod_lt n (by omega))]
      have : n / 10 * 10 + n % 10 = n := by omega
      rw [this]

lemma repr_val (n : Nat) : digitsValFrom 0 (Nat.repr n).data = n := by
  have h := toDigitsCore_val (n+1) n [] (Nat.lt_succ_self n)
  simpa [Nat.repr, Nat.toDigits, List.asString, digitsValFrom] using h

lemma repr_injective {m n : Nat} (h : Nat.repr m = Nat.repr n) : m = n := by
  have hm := repr_val m
  rw [h, repr_val n] at hm
  omega

lemma string_data_inj {s t : String} (h : s.data = t.data) : s = t := by
  cases s; cases t; exact congrArg String.mk h

lemma dirPartPath_inj (dir : String) (fid : Nat) {i j : Nat}
    (h : dir ++ partPath fid i = dir ++ partPath fid j) : i = j := by
  have hd : (dir ++ partPath fid i).data = (dir ++ partPath fid j).data := by rw [h]
  simp only [partPath, String.data_append, List.append_assoc] at hd
  have e1 := List.append_cancel_left hd
  have e2 := List.append_cancel_left e1
  have e3 := List.append_cancel_left e2
  have h2 : (Nat.repr i).data = (Nat.repr j).data := List.append_cancel_right e3
  exact repr_injective (string_data_inj h2)

/-! ### Chunking lemmas -/

lemma chunksOfAux_fuel : ∀ (f g : Nat) (c : List Nat), c.length ≤ f → c.length ≤ g →
    chunksOfAux f c = chunksOfAux g c := by
  intro f
  induction f with
  | zero =>
    intro g c hf _
    have : c = [] := List.eq_nil_of_length_eq_zero (by omega)
    subst this
    cases g <;> rfl
  | succ f ih =>
    intro g c hf hg
    match c, g with
    | [], g => cases g <;> rfl
    | x :: xs, 0 => simp at hg
    | x :: xs, g+1 =>
      show (x :: xs).take part_size :: chunksOfAux f ((x :: xs).drop part_size)
          = (x :: xs).take part_size :: chunksOfAux g ((x :: xs).drop part_size)
      have hlen : ((x :: xs).drop part_size).length ≤ f := by
        simp only [List.length_drop]
        simp at hf
        simp [part_size]
        omega
      have hleng : ((x :: xs).drop part_size).length ≤ g := by
        simp only [List.length_drop]
        simp at hg
        simp [part_size]
        omega
      rw [ih g ((x :: xs).drop part_size) hlen hleng]

lemma chunksOf_nil : chunksOf [] = [] := rfl

lemma chunksOf_cons (c : List Nat) (hc : c ≠ []) :
    chunksOf c = c.take part_size :: chunksOf (c.drop part_size) := by
  match c, hc with
  | x :: xs, _ =>
    show chunksOfAux (x :: xs).length (x :: xs) = _
    have h1 : (x :: xs).length = ((x :: xs).length - 1) + 1 := by simp
    rw [h1]
    show (x :: xs).take part_size :: chunksOfAux ((x :: xs).length - 1) ((x :: xs).drop part_size)
        = _
    congr 1
    apply chunksOfAux_fuel
    · simp only [List.length_drop]
      simp [part_size]
    · simp [chunksOf]

lemma concat_chunksOf (c : List Nat) : concatL (chunksOf c) = c := by
  generalize hL : c.length = L
  induction L using Nat.strong_induction_on generalizing c with
  | _ L ih =>
    match c with
    | [] => rfl
    | x :: xs =>
      rw [chunksOf_cons _ (by simp)]
      show (x :: xs).take part_size ++ concatL (chunksOf ((x :: xs).drop part_size)) = x :: xs
      have hlt : ((x :: xs).drop part_size).length < L := by
        simp only [List.length_drop]
        simp at hL
        simp [part_size]
        omega
      rw [ih _ (by omega) _ rfl]
      exact List.take_append_drop _ _

lemma chunksOf_ne_nil (c : List Nat) (hc : c ≠ []) : chunksOf c ≠ [] := by
  rw [chunksOf_cons c hc]
  simp

/-! ### Lemmas about the specification-side lists -/

lemma putSpecParts_length (md5F : List Nat → String) (fid : Nat) :
    ∀ (cs : List (List Nat)) (pid idx : Nat),
    (putSpecParts md5F fid pid idx cs).length = cs.length := by
  intro cs
  induction cs with
  | nil => intro pid idx; rfl
  | cons c cs ih => intro pid idx; simp [putSpecParts, ih]

lemma putSpecParts_append (md5F : List Nat → String) (fid : Nat) :
    ∀ (cs₁ cs₂ : List (List Nat)) (pid idx : Nat),
    putSpecParts md5F fid pid idx (cs₁ ++ cs₂)
      = putSpecParts md5F fid pid idx cs₁
        ++ putSpecParts md5F fid (pid + cs₁.length) (idx + cs₁.length) cs₂ := by
  intro cs₁
  induction cs₁ with
  | nil => intro cs₂ pid idx; simp [putSpecParts]
  | cons c cs ih =>
    intro cs₂ pid idx
    have h1 : putSpecParts md5F fid pid idx ((c :: cs) ++ cs₂)
        = ⟨pid, fid, partPath fid idx, some (md5F c), true, idx⟩ ::
            putSpecParts md5F fid (pid+1) (idx+1) (cs ++ cs₂) := rfl
    have h2 : putSpecParts md5F fid pid idx (c :: cs)
        = ⟨pid, fid, partPath fid idx, some (md5F c), true, idx⟩ ::
            putSpecParts md5F fid (pid+1) (idx+1) cs := rfl
    rw [h1, ih, h2]
    have h3 : pid + 1 + cs.length = pid + (c :: cs).length := by simp; omega
    have h4 : idx + 1 + cs.length = idx + (c :: cs).length := by simp; omega
    rw [h3, h4]
    rfl

lemma savedHashes_stagePairs (md5F : List Nat → String) (dir : String) (fid : Nat) :
    ∀ (cs : List (List Nat)) (idx : Nat),
    savedHashes md5F (stagePairs dir fid idx cs) = cs.map md5F := by
  intro cs
  induction cs with
  | nil => intro idx; rfl
  | cons c cs ih => intro idx; simp [stagePairs, savedHashes] at ih ⊢; exact ih (idx+1)

lemma modifyIdx_append (f : FilePart → FilePart) :
    ∀ (D : List FilePart) (q : FilePart) (t : List FilePart),
    modifyIdx (D ++ q :: t) D.length f = D ++ f q :: t := by
  intro D
  induction D with
  | nil => intro q t; rfl
  | cons d D ih =>
    intro q t
    show d :: modifyIdx (D ++ q :: t) D.length f = d :: (D ++ f q :: t)
    exact congrArg (fun l => d :: l) (ih q t)

/-! ### Characterization of the batch I/O steps of put -/

lemma saveBatch_spec (compF : List Nat → List Nat) (dir : String) (fid : Nat) :
    ∀ (cs : List (List Nat)) (st : SysState) (idx : Nat),
    (saveBatch compF st (stagePairs dir fid idx cs)).files = st.files
    ∧ (saveBatch compF st (stagePairs dir fid idx cs)).parts = st.parts
    ∧ (saveBatch compF st (stagePairs dir fid idx cs)).fileNext = st.fileNext
    ∧ (saveBatch compF st (stagePairs dir fid idx cs)).partNext = st.partNext
    ∧ (saveBatch compF st (stagePairs dir fid idx cs)).memUsage = st.memUsage
    ∧ (saveBatch compF st (stagePairs dir fid idx cs)).memLimit = st.memLimit
    ∧ (∀ jj, jj < cs.length →
        (saveBatch compF st (stagePairs dir fid idx cs)).disk (dir ++ partPath fid (idx + jj))
          = some (compF (cs.getD jj [])))
    ∧ (∀ p, (∀ jj, jj < cs.length → p ≠ dir ++ partPath fid (idx + jj)) →
        (saveBatch compF st (stagePairs dir fid idx cs)).disk p = st.disk p) := by
  intro cs
  induction cs with
  | nil =>
    intro st idx
    refine ⟨rfl, rfl, rfl, rfl, rfl, rfl, ?_, ?_⟩
    · intro jj h; simp at h
    · intro p _; rfl
  | cons c cs ih =>
    intro st idx
    have hstep : saveBatch compF st (stagePairs dir fid idx (c :: cs))
        = saveBatch compF (updDisk st (dir ++ partPath fid idx) (some (compF c)))
            (stagePairs dir fid (idx+1) cs) := rfl
    obtain ⟨hf, hp, hfn, hpn, hmu, hml, hmain, hframe⟩ :=
      ih (updDisk st (dir ++ partPath fid idx) (some (compF c))) (idx+1)
    rw [hstep]
    refine ⟨hf, hp, hfn, hpn, hmu, hml, ?_, ?_⟩
    · intro jj hjj
      match jj with
      | 0 =>
        simp only [Nat.add_zero]
        have hside : ∀ j2, j2 < cs.length →
            dir ++ partPath fid idx ≠ dir ++ partPath fid (idx + 1 + j2) := by
          intro j2 _ hcontra
          have := dirPartPath_inj dir fid hcontra
          omega
        rw [hframe _ hside]
        show (if dir ++ partPath fid idx = dir ++ partPath fid idx
              then some (compF c) else st.disk (dir ++ partPath fid idx))
            = some (compF ((c :: cs).getD 0 []))
        rw [if_pos rfl]
        rfl
      | jj+1 =>
        have hm := hmain jj (by simpa using hjj)
        have harith : idx + 1 + jj = idx + (jj + 1) := by omega
        rw [harith] at hm
        rw [hm]
        simp [List.getD]
    · intro p hp2
      have hside : ∀ j2, j2 < cs.length → p ≠ dir ++ partPath fid (idx + 1 + j2) := by
        intro j2 hj2
        have harith : idx + 1 + j2 = idx + (j2 + 1) := by omega
        rw [harith]
        exact hp2 (j2+1) (by simpa using Nat.succ_lt_succ hj2)
      rw [hframe _ hside]
      have h0 : p ≠ dir ++ partPath fid idx := by
        have := hp2 0 (by simp)
        simpa using this
      show (if p = dir ++ partPath fid idx then some (compF c) else st.disk p) = st.disk p
      rw [if_neg h0]

lemma setHashes_spec (md5F : List Nat → String) (fid : Nat) :
    ∀ (cs : List (List Nat)) (st : SysState) (D : List FilePart) (pn idx : Nat),
    st.parts fid = some (D ++ rawParts fid pn idx cs) → D.length = idx →
    (setHashes fid st ((rawParts fid pn idx cs).zip (cs.map md5F))).parts fid
        = some (D ++ putSpecParts md5F fid pn idx cs)
    ∧ (∀ g, g ≠ fid →
        (setHashes fid st ((rawParts fid pn idx cs).zip (cs.map md5F))).parts g = st.parts g)
    ∧ (setHashes fid st ((rawParts fid pn idx cs).zip (cs.map md5F))).files = st.files
    ∧ (setHashes fid st ((rawParts fid pn idx cs).zip (cs.map md5F))).disk = st.disk
    ∧ (setHashes fid st ((rawParts fid pn idx cs).zip (cs.map md5F))).fileNext = st.fileNext
    ∧ (setHashes fid st ((rawParts fid pn idx cs).zip (cs.map md5F))).partNext = st.partNext
    ∧ (setHashes fid st ((rawParts fid pn idx cs).zip (cs.map md5F))).memUsage = st.memUsage
    ∧ (setHashes fid st ((rawParts fid pn idx cs).zip (cs.map md5F))).memLimit = st.memLimit := by
  intro cs
  induction cs with
  | nil =>
    intro st D pn idx hparts hlen
    refine ⟨?_, fun g _ => rfl, rfl, rfl, rfl, rfl, rfl, rfl⟩
    simpa [rawParts, putSpecParts] using hparts
  | cons c cs ih =>
    intro st D pn idx hparts hlen
    have hfp : (mkFilePart pn fid none false idx).index = idx := rfl
    have hunf : setHashes fid st ((rawParts fid pn idx (c :: cs)).zip ((c :: cs).map md5F))
        = setHashes fid
            (updParts st fid (some (modifyIdx ((st.parts fid).getD []) idx
              (fun q => { q with hash := some (md5F c), status := true }))))
            ((rawParts fid (pn+1) (idx+1) cs).zip (cs.map md5F)) := rfl
    rw [hunf]
    set st1 := updParts st fid (some (modifyIdx ((st.parts fid).getD []) idx
      (fun q => { q with hash := some (md5F c), status := true }))) with hst1
    have hnewparts : st1.parts fid
        = some (D ++ (⟨pn, fid, partPath fid idx, some (md5F c), true, idx⟩ : FilePart)
            :: rawParts fid (pn+1) (idx+1) cs) := by
      rw [hst1]
      simp only [updParts, if_pos rfl]
      rw [hparts]
      show some (modifyIdx (D ++ mkFilePart pn fid none false idx :: rawParts fid (pn+1) (idx+1) cs) idx _) = _
      rw [← hlen, modifyIdx_append]
      rfl
    have hnew2 : st1.parts fid
        = some ((D ++ [⟨pn, fid, partPath fid idx, some (md5F c), true, idx⟩])
            ++ rawParts fid (pn+1) (idx+1) cs) := by
      rw [hnewparts]; simp
    obtain ⟨h1, h2, h3, h4, h5, h6, h7, h8⟩ :=
      ih st1 (D ++ [⟨pn, fid, partPath fid idx, some (md5F c), true, idx⟩]) (pn+1) (idx+1)
        hnew2 (by simp [hlen])
    refine ⟨?_, ?_, ?_, ?_, ?_, ?_, ?_, ?_⟩
    · rw [h1]
      simp [putSpecParts]
    · intro g hg
      rw [h2 g hg, hst1]
      simp [updParts, hg]
    · rw [h3]; rfl
    · rw [h4]; rfl
    · rw [h5]; rfl
    · rw [h6]; rfl
    · rw [h7]; rfl
    · rw [h8]; rfl

/-! ### Characterization of the put item loop -/

lemma getD_take {l : List (List Nat)} {n j : Nat} (h : j < n) :
    (l.take n).getD j [] = l.getD j [] := by
  simp [List.getD, List.getElem?_take, h]

lemma putItems_ok (dir : String) (fid : Nat) (oLock oMem : Nat → Bool) :
    ∀ (i : Nat) (st : SysState) (k : Nat) (rem : List Nat) (index : Nat)
      (batch : List (List Nat × String)) (staged : List FilePart)
      (st' : SysState) (k' : Nat) (rem' : List Nat) (index' : Nat)
      (batch' : List (List Nat × String)) (staged' : List FilePart) (fin : Bool)
      (L : List FilePart),
    putItems dir fid oLock oMem i st k rem index batch staged
      = .ok st' k' rem' index' batch' staged' fin →
    st.parts fid = some L →
    fin = decide ((chunksOf rem).length < i)
    ∧ st'.parts fid = some (L ++ rawParts fid st.partNext index
        ((chunksOf rem).take (min i (chunksOf rem).length)))
    ∧ (∀ g, g ≠ fid → st'.parts g = st.parts g)
    ∧ st'.partNext = st.partNext + min i (chunksOf rem).length
        + (if (chunksOf rem).length < i then 1 else 0)
    ∧ st'.files = st.files
    ∧ st'.disk = st.disk
    ∧ st'.memUsage = st.memUsage
    ∧ st'.memLimit = st.memLimit
    ∧ st'.fileNext = st.fileNext
    ∧ chunksOf rem' = (chunksOf rem).drop (min i (chunksOf rem).length)
    ∧ index' = index + min i (chunksOf rem).length
    ∧ batch' = batch ++ stagePairs dir fid index
        ((chunksOf rem).take (min i (chunksOf rem).length))
    ∧ staged' = staged ++ rawParts fid st.partNext index
        ((chunksOf rem).take (min i (chunksOf rem).length)) := by
  intro i
  induction i with
  | zero =>
    intro st k rem index batch staged st' k' rem' index' batch' staged' fin L h hL
    have h0 : ItemsRes.ok st k rem index batch staged false
        = ItemsRes.ok st' k' rem' index' batch' staged' fin := h
    injection h0 with e1 e2 e3 e4 e5 e6 e7
    subst e1; subst e2; subst e3; subst e4; subst e5; subst e6; subst e7
    simp [hL, rawParts, stagePairs]
  | succ i ih =>
    intro st k rem index batch staged st' k' rem' index' batch' staged' fin L h hL
    cases hq : oLock k with
    | false =>
      exfalso
      simp only [putItems, hq, Bool.false_eq_true, if_false] at h
      cases hm : oMem (k+1) with
      | false => simp only [hm, Bool.false_eq_true, if_false] at h; exact ItemsRes.noConfusion h
      | true => simp only [hm, if_true] at h; exact ItemsRes.noConfusion h
    | true =>
      match rem with
      | [] =>
        simp only [putItems, hq, if_true] at h
        injection h with e1 e2 e3 e4 e5 e6 e7
        subst e1; subst e2; subst e3; subst e4; subst e5; subst e6; subst e7
        simp [hL, rawParts, stagePairs, chunksOf_nil]
      | x :: xs =>
        simp only [putItems, hq, if_true] at h
        obtain ⟨c1, c2, c3, c4, c5, c6, c7, c8, c9, c10, c11, c12, c13⟩ :=
          ih _ _ _ _ _ _ _ _ _ _ _ _ _
            (((({ st with partNext := st.partNext + 1 } : SysState).parts fid).getD [])
              ++ [mkFilePart st.partNext fid none false index]) h (by simp [updParts])
        have hgd : ((({ st with partNext := st.partNext + 1 } : SysState).parts fid).getD [])
            = L := by
          show (st.parts fid).getD [] = L
          rw [hL]; rfl
        have hcs : chunksOf (x :: xs)
            = (x :: xs).take part_size :: chunksOf ((x :: xs).drop part_size) :=
          chunksOf_cons _ (by simp)
        have hmin : min (i+1) (chunksOf (x :: xs)).length
            = min i (chunksOf ((x :: xs).drop part_size)).length + 1 := by
          rw [hcs]; simp [Nat.succ_min_succ]
        have hlt : ((chunksOf (x :: xs)).length < i + 1)
            ↔ ((chunksOf ((x :: xs).drop part_size)).length < i) := by
          rw [hcs]; simp
        have htake : (chunksOf (x :: xs)).take (min (i+1) (chunksOf (x :: xs)).length)
            = (x :: xs).take part_size ::
              (chunksOf ((x :: xs).drop part_size)).take
                (min i (chunksOf ((x :: xs).drop part_size)).length) := by
          rw [hmin, hcs, List.take_succ_cons]
        refine ⟨?_, ?_, ?_, ?_, ?_, ?_, ?_, ?_, ?_, ?_, ?_, ?_, ?_⟩
        · rw [c1]
          exact (decide_eq_decide.mpr hlt).symm
        · rw [c2, hgd, htake]
          show _ = some (L ++ (mkFilePart st.partNext fid none false index ::
            rawParts fid (st.partNext + 1) (index + 1) _))
          simp
          rfl
        · intro g hg
          rw [c3 g hg]
          simp [updParts, hg]
        · rw [c4, hmin]
          show st.partNext + 1 + _ + _ = _
          by_cases hc : (chunksOf ((x :: xs).drop part_size)).length < i
          · rw [if_pos hc, if_pos (hlt.mpr hc)]; omega
          · rw [if_neg hc, if_neg (fun hcon => hc (hlt.mp hcon))]; omega
        · rw [c5]; rfl
        · rw [c6]; rfl
        · rw [c7]; rfl
        · rw [c8]; rfl
        · rw [c9]; rfl
        · rw [c10, hmin, hcs, List.drop_succ_cons]
        · rw [c11, hmin]; omega
        · rw [c12, htake]
          show _ = batch ++ (((x :: xs).take part_size, dir ++ partPath fid index) ::
            stagePairs dir fid (index + 1) _)
          simp
          rfl
        · rw [c13, htake]
          show _ = staged ++ (mkFilePart st.partNext fid none false index ::
            rawParts fid (st.partNext + 1) (index + 1) _)
          simp
          rfl

/-! ### Characterization of a completed put -/

lemma getD_drop {l : List (List Nat)} {n j : Nat} :
    (l.drop n).getD j [] = l.getD (n + j) [] := by
  simp [List.getD, List.getElem?_drop]

lemma putLoop_completed (compF : List Nat → List Nat) (md5F : List Nat → String)
    (dir : String) (oMem oLock e : Nat → Bool) (fid : Nat) :
    ∀ (fuel : Nat) (st : SysState) (k : Nat) (rem : List Nat) (index : Nat)
      (D : List FilePart) (f0 : File) (res : PutOut),
    putLoop compF md5F dir oMem oLock e fid fuel st k rem index = res →
    st.parts fid = some D → D.length = index → st.files fid = some f0 →
    res.outcome = PutOutcome.completed →
    res.st.parts fid = some (D ++ putSpecParts md5F fid st.partNext index (chunksOf rem))
    ∧ (∀ g, g ≠ fid → res.st.parts g = st.parts g)
    ∧ res.st.files fid
        = some { f0 with status := true, part_count := index + (chunksOf rem).length }
    ∧ (∀ g, g ≠ fid → res.st.files g = st.files g)
    ∧ res.st.partNext = st.partNext + (chunksOf rem).length + 1
    ∧ res.st.fileNext = st.fileNext
    ∧ res.st.memLimit = st.memLimit
    ∧ (∀ jj, jj < (chunksOf rem).length →
        res.st.disk (dir ++ partPath fid (index + jj))
          = some (compF ((chunksOf rem).getD jj [])))
    ∧ (∀ p, (∀ jj, jj < (chunksOf rem).length → p ≠ dir ++ partPath fid (index + jj)) →
        res.st.disk p = st.disk p) := by
  intro fuel
  induction fuel with
  | zero =>
    intro st k rem index D f0 res hres hD hlen hf0 hout
    subst hres
    exact absurd hout (by simp [putLoop])
  | succ fuel ihfuel =>
    intro st k rem index D f0 res hres hD hlen hf0 hout
    subst hres
    cases hq : oMem k with
    | false =>
      have hstep : putLoop compF md5F dir oMem oLock e fid (fuel+1) st k rem index
          = putLoop compF md5F dir oMem oLock e fid fuel st (k+1) rem index := by
        simp [putLoop, hq]
      rw [hstep] at hout ⊢
      exact ihfuel st (k+1) rem index D f0 _ rfl hD hlen hf0 hout
    | true =>
      cases hpred : memPred st with
      | false =>
        have hstep : putLoop compF md5F dir oMem oLock e fid (fuel+1) st k rem index
            = putLoop compF md5F dir oMem oLock e fid fuel st (k+1) rem index := by
          simp [putLoop, hq, hpred]
        rw [hstep] at hout ⊢
        exact ihfuel st (k+1) rem index D f0 _ rfl hD hlen hf0 hout
      | true =>
        cases hitems : putItems dir fid oLock oMem batch_size (memGrant st) (k+1) rem index [] []
          with
        | abortReleased st2 k2 =>
          have hstep : putLoop compF md5F dir oMem oLock e fid (fuel+1) st k rem index
              = ⟨.partIdLockTimeout, st2, k2⟩ := by
            simp [putLoop, hq, hpred, hitems]
          rw [hstep] at hout
          exact absurd hout (by simp)
        | abortLeaked st2 k2 =>
          have hstep : putLoop compF md5F dir oMem oLock e fid (fuel+1) st k rem index
              = ⟨.releaseFailLeak, st2, k2⟩ := by
            simp [putLoop, hq, hpred, hitems]
          rw [hstep] at hout
          exact absurd hout (by simp)
        | ok st2 k2 rem2 index2 batch staged fin =>
          obtain ⟨c1, c2, c3, c4, c5, c6, c7, c8, c9, c10, c11, c12, c13⟩ :=
            putItems_ok dir fid oLock oMem batch_size (memGrant st) (k+1) rem index [] []
              st2 k2 rem2 index2 batch staged fin D hitems hD
          rw [List.nil_append] at c12 c13
          subst c12
          subst c13
          subst c1
          subst c11
          cases he : e k2 with
          | false =>
            cases hm2 : oMem (k2+1) with
            | true =>
              have hstep : putLoop compF md5F dir oMem oLock e fid (fuel+1) st k rem index
                  = ⟨.excAbort, memRelease st2, k2+2⟩ := by
                simp [putLoop, hq, hpred, hitems, he, hm2]
              rw [hstep] at hout
              exact absurd hout (by simp)
            | false =>
              have hstep : putLoop compF md5F dir oMem oLock e fid (fuel+1) st k rem index
                  = ⟨.releaseFailLeak, st2, k2+2⟩ := by
                simp [putLoop, hq, hpred, hitems, he, hm2]
              rw [hstep] at hout
              exact absurd hout (by simp)
          | true =>
            obtain ⟨v1, v2, v3, v4, v5, v6, v7, v8⟩ :=
              saveBatch_spec compF dir fid
                ((chunksOf rem).take (min batch_size (chunksOf rem).length)) st2 index
            obtain ⟨w1, w2, w3, w4, w5, w6, w7, w8⟩ :=
              setHashes_spec md5F fid
                ((chunksOf rem).take (min batch_size (chunksOf rem).length))
                (saveBatch compF st2
                  (stagePairs dir fid index
                    ((chunksOf rem).take (min batch_size (chunksOf rem).length))))
                D (memGrant st).partNext index
                (by rw [congrFun v2 fid]; exact c2) hlen
            have hsv : savedHashes md5F (stagePairs dir fid index
                ((chunksOf rem).take (min batch_size (chunksOf rem).length)))
                = List.map md5F ((chunksOf rem).take (min batch_size (chunksOf rem).length)) :=
              savedHashes_stagePairs md5F dir fid _ index
            set T := (chunksOf rem).take (min batch_size (chunksOf rem).length) with hTdef
            set st3T := saveBatch compF st2 (stagePairs dir fid index T) with h3def
            set st4T := setHashes fid st3T
              ((rawParts fid (memGrant st).partNext index T).zip (List.map md5F T)) with h4def
            have hTlen : T.length = min batch_size (chunksOf rem).length := by
              rw [hTdef, List.length_take]
              omega
            have hparts4 : st4T.parts fid
                = some (D ++ putSpecParts md5F fid st.partNext index T) := w1
            have hparts4g : ∀ g, g ≠ fid → st4T.parts g = st.parts g := by
              intro g hg
              rw [w2 g hg, congrFun v2 g, c3 g hg]
              rfl
            have hfiles4 : st4T.files = st.files := by
              rw [w3, v1, c5]
              rfl
            have hpn4 : st4T.partNext = st.partNext + min batch_size (chunksOf rem).length
                + (if (chunksOf rem).length < batch_size then 1 else 0) := by
              rw [w6, v4, c4]
              rfl
            have hfn4 : st4T.fileNext = st.fileNext := by
              rw [w5, v3, c9]
              rfl
            have hml4 : st4T.memLimit = st.memLimit := by
              rw [w8, v6, c8]
              rfl
            have hdisk4main : ∀ jj, jj < min batch_size (chunksOf rem).length →
                st4T.disk (dir ++ partPath fid (index + jj))
                  = some (compF ((chunksOf rem).getD jj [])) := by
              intro jj hjj
              rw [congrFun w4 _, v7 jj (by omega), getD_take (by omega)]
            have hdisk4frame : ∀ p,
                (∀ jj, jj < min batch_size (chunksOf rem).length →
                  p ≠ dir ++ partPath fid (index + jj)) →
                st4T.disk p = st.disk p := by
              intro p hp
              rw [congrFun w4 p, v8 p (fun jj hjj => hp jj (by omega)), congrFun c6 p]
              rfl
            have hlenD' : (D ++ putSpecParts md5F fid st.partNext index T).length
                = index + min batch_size (chunksOf rem).length := by
              rw [List.length_append, putSpecParts_length, hTlen, hlen]
            by_cases hfin : (chunksOf rem).length < batch_size
            · -- the item loop hit end-of-stream: this round is the last
              have hmM : min batch_size (chunksOf rem).length = (chunksOf rem).length := by
                omega
              have hTfull : T = chunksOf rem := by
                rw [hTdef, hmM, List.take_length]
              have hfinish : ∀ (Z : SysState),
                  Z.parts = st4T.parts → Z.files = st4T.files →
                  finishPut Z fid = updFiles Z fid
                    (some { f0 with
                        status := true,
                        part_count := index + (chunksOf rem).length }) := by
                intro Z hZp hZf
                have hZparts : Z.parts fid
                    = some (D ++ putSpecParts md5F fid st.partNext index T) := by
                  rw [congrFun hZp fid]; exact hparts4
                have hZfiles : Z.files fid = some f0 := by
                  rw [congrFun hZf fid, congrFun hfiles4 fid]; exact hf0
                rw [finishPut, hZparts, hZfiles]
                show updFiles Z fid (some { f0 with
                  status := true,
                  part_count := (D ++ putSpecParts md5F fid st.partNext index T).length }) = _
                rw [hlenD', hmM]
              have hconc : ∀ (Z : SysState),
                  Z.parts = st4T.parts → Z.files = st4T.files →
                  Z.partNext = st4T.partNext → Z.fileNext = st4T.fileNext →
                  Z.memLimit = st4T.memLimit → Z.disk = st4T.disk →
                  ∀ (kz : Nat),
                  (PutOut.mk .completed (finishPut Z fid) kz).st.parts fid
                      = some (D ++ putSpecParts md5F fid st.partNext index (chunksOf rem))
                  ∧ (∀ g, g ≠ fid →
                      (PutOut.mk .completed (finishPut Z fid) kz).st.parts g = st.parts g)
                  ∧ (PutOut.mk .completed (finishPut Z fid) kz).st.files fid
                      = some { f0 with
                          status := true,
                          part_count := index + (chunksOf rem).length }
                  ∧ (∀ g, g ≠ fid →
                      (PutOut.mk .completed (finishPut Z fid) kz).st.files g = st.files g)
                  ∧ (PutOut.mk .completed (finishPut Z fid) kz).st.partNext
                      = st.partNext + (chunksOf rem).length + 1
                  ∧ (PutOut.mk .completed (finishPut Z fid) kz).st.fileNext = st.fileNext
                  ∧ (PutOut.mk .completed (finishPut Z fid) kz).st.memLimit = st.memLimit
                  ∧ (∀ jj, jj < (chunksOf rem).length →
                      (PutOut.mk .completed (finishPut Z fid) kz).st.disk
                        (dir ++ partPath fid (index + jj))
                        = some (compF ((chunksOf rem).getD jj [])))
                  ∧ (∀ p, (∀ jj, jj < (chunksOf rem).length →
                        p ≠ dir ++ partPath fid (index + jj)) →
                      (PutOut.mk .completed (finishPut Z fid) kz).st.disk p = st.disk p) := by
                intro Z hZp hZf hZpn hZfn hZml hZd kz
                rw [hfinish Z hZp hZf]
                refine ⟨?_, ?_, ?_, ?_, ?_, ?_, ?_, ?_, ?_⟩
                · show Z.parts fid = _
                  rw [congrFun hZp fid, hparts4, hTfull]
                · intro g hg
                  show Z.parts g = _
                  rw [congrFun hZp g]
                  exact hparts4g g hg
                · show (if fid = fid then _ else Z.files fid) = _
                  rw [if_pos rfl]
                · intro g hg
                  show (if g = fid then _ else Z.files g) = _
                  rw [if_neg hg, congrFun hZf g, congrFun hfiles4 g]
                · show Z.partNext = _
                  rw [hZpn, hpn4, hmM, if_pos hfin]
                · show Z.fileNext = _
                  rw [hZfn, hfn4]
                · show Z.memLimit = _
                  rw [hZml, hml4]
                · intro jj hjj
                  show Z.disk _ = _
                  rw [congrFun hZd _]
                  exact hdisk4main jj (by omega)
                · intro p hp
                  show Z.disk p = _
                  rw [congrFun hZd p]
                  exact hdisk4frame p (fun jj hjj => hp jj (by omega))
              cases hm2 : oMem (k2+1) with
              | true =>
                have hstep : putLoop compF md5F dir oMem oLock e fid (fuel+1) st k rem index
                    = ⟨.completed, finishPut (memRelease st4T) fid, k2+2⟩ := by
                  simp [putLoop, hq, hpred, hitems, he, hm2, hsv, hfin, hTdef, h3def, h4def]
                rw [hstep]
                exact hconc (memRelease st4T) rfl rfl rfl rfl rfl rfl (k2+2)
              | false =>
                have hstep : putLoop compF md5F dir oMem oLock e fid (fuel+1) st k rem index
                    = ⟨.completed, finishPut st4T fid, k2+2⟩ := by
                  simp [putLoop, hq, hpred, hitems, he, hm2, hsv, hfin, hTdef, h3def, h4def]
                rw [hstep]
                exact hconc st4T rfl rfl rfl rfl rfl rfl (k2+2)
            · -- a full batch was staged: the loop continues
              have hmM : min batch_size (chunksOf rem).length = batch_size := by
                omega
              have hsplit : putSpecParts md5F fid st.partNext index (chunksOf rem)
                  = putSpecParts md5F fid st.partNext index T
                    ++ putSpecParts md5F fid (st.partNext + batch_size) (index + batch_size)
                        ((chunksOf rem).drop batch_size) := by
                conv_lhs => rw [← List.take_append_drop batch_size (chunksOf rem)]
                rw [putSpecParts_append]
                rw [hTdef, hmM]
                congr 2 <;> rw [List.length_take] <;> omega
              have hrecur : ∀ (Z : SysState),
                  Z.parts = st4T.parts → Z.files = st4T.files →
                  Z.partNext = st4T.partNext → Z.fileNext = st4T.fileNext →
                  Z.memLimit = st4T.memLimit → Z.disk = st4T.disk →
                  ∀ (kz : Nat) (res2 : PutOut),
                  putLoop compF md5F dir oMem oLock e fid fuel Z kz rem2
                      (index + min batch_size (chunksOf rem).length) = res2 →
                  res2.outcome = PutOutcome.completed →
                  res2.st.parts fid
                      = some (D ++ putSpecParts md5F fid st.partNext index (chunksOf rem))
                  ∧ (∀ g, g ≠ fid → res2.st.parts g = st.parts g)
                  ∧ res2.st.files fid
                      = some { f0 with
                          status := true,
                          part_count := index + (chunksOf rem).length }
                  ∧ (∀ g, g ≠ fid → res2.st.files g = st.files g)
                  ∧ res2.st.partNext = st.partNext + (chunksOf rem).length + 1
                  ∧ res2.st.fileNext = st.fileNext
                  ∧ res2.st.memLimit = st.memLimit
                  ∧ (∀ jj, jj < (chunksOf rem).length →
                      res2.st.disk (dir ++ partPath fid (index + jj))
                        = some (compF ((chunksOf rem).getD jj [])))
                  ∧ (∀ p, (∀ jj, jj < (chunksOf rem).length →
                        p ≠ dir ++ partPath fid (index + jj)) →
                      res2.st.disk p = st.disk p) := by
                intro Z hZp hZf hZpn hZfn hZml hZd kz res2 hres2 hout2
                have hZparts : Z.parts fid
                    = some (D ++ putSpecParts md5F fid st.partNext index T) := by
                  rw [congrFun hZp fid]; exact hparts4
                have hZfiles : Z.files fid = some f0 := by
                  rw [congrFun hZf fid, congrFun hfiles4 fid]; exact hf0
                have hZpn' : Z.partNext = st.partNext + batch_size := by
                  rw [hZpn, hpn4, hmM, if_neg hfin]
                  omega
                obtain ⟨i1, i2, i3, i4, i5, i6, i7, i8, i9⟩ :=
                  ihfuel Z kz rem2 (index + min batch_size (chunksOf rem).length)
                    (D ++ putSpecParts md5F fid st.partNext index T) f0 res2 hres2
                    hZparts (by rw [hlenD']) hZfiles hout2
                have hlen2 : (chunksOf rem2).length = (chunksOf rem).length - batch_size := by
                  rw [c10, List.length_drop, hmM]
                refine ⟨?_, ?_, ?_, ?_, ?_, ?_, ?_, ?_, ?_⟩
                · rw [i1, c10, hZpn', hmM, hsplit]
                  simp
                · intro g hg
                  rw [i2 g hg, congrFun hZp g]
                  exact hparts4g g hg
                · rw [i3]
                  have : index + min batch_size (chunksOf rem).length
                      + (chunksOf rem2).length = index + (chunksOf rem).length := by
                    rw [hlen2, hmM]; omega
                  rw [this]
                · intro g hg
                  rw [i4 g hg, congrFun hZf g, congrFun hfiles4 g]
                · rw [i5, hZpn', hlen2]
                  omega
                · rw [i6, hZfn, hfn4]
                · rw [i7, hZml, hml4]
                · intro jj hjj
                  by_cases hjb : jj < batch_size
                  · rw [i9 _ ?side]
                    case side =>
                      intro j2 hj2 hcontra
                      have := dirPartPath_inj dir fid hcontra
                      omega
                    rw [congrFun hZd _]
                    exact hdisk4main jj (by omega)
                  · have hi8 := i8 (jj - batch_size) (by omega)
                    have harith : index + min batch_size (chunksOf rem).length
                        + (jj - batch_size) = index + jj := by
                      rw [hmM]; omega
                    rw [harith] at hi8
                    rw [hi8, c10, hmM, getD_drop]
                    have h2b : batch_size + (jj - batch_size) = jj := by omega
                    rw [h2b]
                · intro p hp
                  rw [i9 p ?side2]
                  case side2 =>
                    intro j2 hj2
                    have harith : index + min batch_size (chunksOf rem).length + j2
                        = index + (batch_size + j2) := by
                      rw [hmM]; omega
                    rw [harith]
                    exact hp (batch_size + j2) (by omega)
                  rw [congrFun hZd p]
                  exact hdisk4frame p (fun jj hjj => hp jj (by omega))
              cases hm2 : oMem (k2+1) with
              | true =>
                have hstep : putLoop compF md5F dir oMem oLock e fid (fuel+1) st k rem index
                    = putLoop compF md5F dir oMem oLock e fid fuel (memRelease st4T) (k2+2)
                        rem2 (index + min batch_size (chunksOf rem).length) := by
                  simp [putLoop, hq, hpred, hitems, he, hm2, hsv, hfin, hTdef, h3def, h4def]
                rw [hstep] at hout ⊢
                exact hrecur (memRelease st4T) rfl rfl rfl rfl rfl rfl (k2+2) _ rfl hout
              | false =>
                have hstep : putLoop compF md5F dir oMem oLock e fid (fuel+1) st k rem index
                    = putLoop compF md5F dir oMem oLock e fid fuel st4T (k2+2)
                        rem2 (index + min batch_size (chunksOf rem).length) := by
                  simp [putLoop, hq, hpred, hitems, he, hm2, hsv, hfin, hTdef, h3def, h4def]
                rw [hstep] at hout ⊢
                exact hrecur st4T rfl rfl rfl rfl rfl rfl (k2+2) _ rfl hout


lemma putCmd_completed (compF : List Nat → List Nat) (md5F : List Nat → String)
    (dir name : String) (content : List Nat) (oMem oLock e : Nat → Bool)
    (fuel : Nat) (st : SysState) (res : PutOut)
    (hres : putCmd compF md5F dir name content oMem oLock e fuel st = res)
    (hout : res.outcome = PutOutcome.completed) :
    res.st.files st.fileNext
        = some ⟨st.fileNext, name, true, (chunksOf content).length⟩
    ∧ (∀ g, g ≠ st.fileNext → res.st.files g = st.files g)
    ∧ res.st.parts st.fileNext
        = some (putSpecParts md5F st.fileNext st.partNext 0 (chunksOf content))
    ∧ (∀ g, g ≠ st.fileNext → res.st.parts g = st.parts g)
    ∧ res.st.partNext = st.partNext + (chunksOf content).length + 1
    ∧ res.st.fileNext = st.fileNext + 1
    ∧ res.st.memLimit = st.memLimit
    ∧ (∀ jj, jj < (chunksOf content).length →
        res.st.disk (dir ++ partPath st.fileNext jj)
          = some (compF ((chunksOf content).getD jj [])))
    ∧ (∀ p, (∀ jj, jj < (chunksOf content).length →
          p ≠ dir ++ partPath st.fileNext jj) →
        res.st.disk p = st.disk p) := by
  cases hq : oLock 0 with
  | false =>
    rw [putCmd, if_neg (by simp [hq])] at hres
    subst hres
    exact absurd hout (by simp)
  | true =>
    cases he : e 1 with
    | false =>
      rw [putCmd, if_pos (by simp [hq]), if_neg (by simp [he])] at hres
      subst hres
      exact absurd hout (by simp)
    | true =>
      rw [putCmd, if_pos (by simp [hq]), if_pos (by simp [he])] at hres
      obtain ⟨m1, m2, m3, m4, m5, m6, m7, m8, m9⟩ :=
        putLoop_completed compF md5F dir oMem oLock e st.fileNext fuel
          (updParts (updFiles { st with fileNext := st.fileNext + 1 } st.fileNext
            (some ⟨st.fileNext, name, false, 0⟩)) st.fileNext (some []))
          2 content 0 [] ⟨st.fileNext, name, false, 0⟩ res hres
          (by simp [updParts]) rfl (by simp [updParts, updFiles]) hout

      refine ⟨?_, ?_, ?_, ?_, ?_, ?_, ?_, ?_, ?_⟩
      · rw [m3]
        simp
      · intro g hg
        rw [m4 g hg]
        simp [updParts, updFiles, hg]
      · rw [m1]
        rfl
      · intro g hg
        rw [m2 g hg]
        simp [updParts, updFiles, hg]
      · rw [m5]
        rfl
      · rw [m6]
        rfl
      · rw [m7]
        rfl
      · intro jj hjj
        have := m8 jj hjj
        rw [Nat.zero_add] at this
        exact this
      · intro p hp
        have := m9 p (by
          intro jj hjj
          rw [Nat.zero_add]
          exact hp jj hjj)
        rw [this]
        rfl

/-! ### Characterization of the get batch I/O -/

lemma sliceMap_append (f : Nat → List Nat) :
    ∀ (c1 c2 a : Nat), sliceMap f a (c1 + c2) = sliceMap f a c1 ++ sliceMap f (a + c1) c2 := by
  intro c1
  induction c1 with
  | zero => intro c2 a; simp [sliceMap]
  | succ c1 ih =>
    intro c2 a
    have h1 : c1 + 1 + c2 = (c1 + c2) + 1 := by omega
    rw [h1]
    show f a :: sliceMap f (a+1) (c1 + c2) = (f a :: sliceMap f (a+1) c1) ++ _
    rw [ih c2 (a+1)]
    have h2 : a + 1 + c1 = a + (c1 + 1) := by omega
    rw [h2]
    rfl

lemma concatL_append : ∀ (l1 l2 : List (List Nat)),
    concatL (l1 ++ l2) = concatL l1 ++ concatL l2 := by
  intro l1
  induction l1 with
  | nil => intro l2; rfl
  | cons c l ih => intro l2; show c ++ concatL (l ++ l2) = _; rw [ih]; simp [concatL]

lemma drop_getD_cons : ∀ (l : List FilePart) (s : Nat), s < l.length →
    l.drop s = l.getD s default :: l.drop (s+1) := by
  intro l
  induction l with
  | nil => intro s h; simp at h
  | cons x xs ih =>
    intro s h
    match s with
    | 0 => rfl
    | s+1 =>
      show xs.drop s = _
      rw [ih s (by simpa using h)]
      rfl

lemma readBatch_intact (decompF : List Nat → List Nat) (md5F : List Nat → String)
    (dir : String) (disk : String → Option (List Nat))
    (ps : List FilePart) (B : Nat → List Nat) :
    ∀ (c s : Nat), s + c ≤ ps.length →
    (∀ j, s ≤ j → j < s + c → disk (dir ++ (ps.getD j default).path) = some (B j)) →
    (∀ j, s ≤ j → j < s + c → (ps.getD j default).hash = some (md5F (decompF (B j)))) →
    readBatch decompF md5F disk (((ps.drop s).take c).map (fun p => (p.hash, dir ++ p.path)))
      = some ((sliceMap (fun j => decompF (B j)) s c).map (fun d => (true, d))) := by
  intro c
  induction c with
  | zero =>
    intro s _ _ _
    simp [sliceMap, readBatch]
  | succ c ih =>
    intro s hle hdisk hhash
    rw [drop_getD_cons ps s (by omega), List.take_succ_cons]
    show readBatch decompF md5F disk (((ps.getD s default).hash,
        dir ++ (ps.getD s default).path) :: _) = _
    rw [readBatch, hdisk s (by omega) (by omega)]
    have hrest := ih (s+1) (by omega)
      (fun j h1 h2 => hdisk j (by omega) (by omega))
      (fun j h1 h2 => hhash j (by omega) (by omega))
    rw [hrest]
    show some ((if (ps.getD s default).hash = some (md5F (decompF (B s)))
        then (true, decompF (B s)) else (false, []))
      :: (sliceMap (fun j => decompF (B j)) (s+1) c).map (fun d => (true, d))) = _
    rw [if_pos (hhash s (by omega) (by omega))]
    rfl

lemma readBatch_isSome (decompF : List Nat → List Nat) (md5F : List Nat → String)
    (dir : String) (disk : String → Option (List Nat))
    (ps : List FilePart) (B : Nat → List Nat) :
    ∀ (c s : Nat), s + c ≤ ps.length →
    (∀ j, s ≤ j → j < s + c → disk (dir ++ (ps.getD j default).path) = some (B j)) →
    ∃ rs, readBatch decompF md5F disk
      (((ps.drop s).take c).map (fun p => (p.hash, dir ++ p.path))) = some rs := by
  intro c
  induction c with
  | zero => intro s _ _; exact ⟨[], by simp [readBatch]⟩
  | succ c ih =>
    intro s hle hdisk
    rw [drop_getD_cons ps s (by omega), List.take_succ_cons]
    obtain ⟨rs, hrs⟩ := ih (s+1) (by omega) (fun j h1 h2 => hdisk j (by omega) (by omega))
    refine ⟨(if (ps.getD s default).hash = some (md5F (decompF (B s)))
        then (true, decompF (B s)) else (false, [])) :: rs, ?_⟩
    show readBatch decompF md5F disk (((ps.getD s default).hash,
        dir ++ (ps.getD s default).path) :: _) = _
    rw [readBatch, hdisk s (by omega) (by omega), hrs]

lemma readBatch_firstBad (decompF : List Nat → List Nat) (md5F : List Nat → String)
    (dir : String) (disk : String → Option (List Nat))
    (ps : List FilePart) (B : Nat → List Nat) (j : Nat) :
    ∀ (c s : Nat), s + c ≤ ps.length → s ≤ j → j < s + c →
    (∀ jq, s ≤ jq → jq < s + c → disk (dir ++ (ps.getD jq default).path) = some (B jq)) →
    (∀ jq, s ≤ jq → jq < j → (ps.getD jq default).hash = some (md5F (decompF (B jq)))) →
    (ps.getD j default).hash ≠ some (md5F (decompF (B j))) →
    ∃ rest, readBatch decompF md5F disk
        (((ps.drop s).take c).map (fun p => (p.hash, dir ++ p.path)))
      = some (((sliceMap (fun jq => decompF (B jq)) s (j - s)).map (fun d => (true, d)))
          ++ (false, []) :: rest) := by
  intro c
  induction c with
  | zero => intro s _ h1 h2; omega
  | succ c ih =>
    intro s hle hsj hjc hdisk hhash hbad
    rw [drop_getD_cons ps s (by omega), List.take_succ_cons]
    by_cases heq : s = j
    · subst heq
      obtain ⟨rs, hrs⟩ := readBatch_isSome decompF md5F dir disk ps B c (s+1) (by omega)
        (fun jq h1 h2 => hdisk jq (by omega) (by omega))
      refine ⟨rs, ?_⟩
      show readBatch decompF md5F disk (((ps.getD s default).hash,
          dir ++ (ps.getD s default).path) :: _) = _
      rw [readBatch, hdisk s (by omega) (by omega), hrs]
      show some ((if (ps.getD s default).hash = some (md5F (decompF (B s)))
          then (true, decompF (B s)) else (false, [])) :: rs) = _
      rw [if_neg hbad]
      have hss : s - s = 0 := by omega
      rw [hss]
      rfl
    · obtain ⟨rest, hrest⟩ := ih (s+1) (by omega) (by omega) (by omega)
        (fun jq h1 h2 => hdisk jq (by omega) (by omega))
        (fun jq h1 h2 => hhash jq (by omega) (by omega)) hbad
      refine ⟨rest, ?_⟩
      show readBatch decompF md5F disk (((ps.getD s default).hash,
          dir ++ (ps.getD s default).path) :: _) = _
      rw [readBatch, hdisk s (by omega) (by omega), hrest]
      show some ((if (ps.getD s default).hash = some (md5F (decompF (B s)))
          then (true, decompF (B s)) else (false, []))
        :: (((sliceMap (fun jq => decompF (B jq)) (s+1) (j - (s+1))).map (fun d => (true, d)))
            ++ (false, []) :: rest)) = _
      rw [if_pos (hhash s (by omega) (by omega))]
      have hjs : j - s = (j - (s+1)) + 1 := by omega
      rw [hjs]
      rfl

lemma writeLoop_trues : ∀ (ds : List (List Nat)) (w : List Nat),
    writeLoop (ds.map (fun d => (true, d))) w = (true, w ++ concatL ds) := by
  intro ds
  induction ds with
  | nil => intro w; simp [writeLoop, concatL]
  | cons d ds ih =>
    intro w
    show writeLoop ((true, d) :: _) w = _
    rw [writeLoop, if_pos rfl, ih]
    simp [concatL]

lemma writeLoop_firstBad : ∀ (ds : List (List Nat)) (rest : List (Bool × List Nat)) (w : List Nat),
    writeLoop ((ds.map (fun d => (true, d))) ++ (false, []) :: rest) w
      = (false, w ++ concatL ds) := by
  intro ds
  induction ds with
  | nil =>
    intro rest w
    show writeLoop ((false, []) :: rest) w = _
    rw [writeLoop]
    simp [concatL]
  | cons d ds ih =>
    intro rest w
    show writeLoop ((true, d) :: _) w = _
    rw [writeLoop, if_pos rfl]
    show writeLoop ((ds.map (fun d => (true, d))) ++ (false, []) :: rest) (w ++ d) = _
    rw [ih]
    simp [concatL]

/-! ### Characterization of the get loop -/

lemma getLoop_frame (decompF : List Nat → List Nat) (md5F : List Nat → String)
    (dir : String) (oMem e : Nat → Bool) (ps : List FilePart) :
    ∀ (fuel : Nat) (st : SysState) (k index : Nat) (w : List Nat),
    (getLoop decompF md5F dir oMem e ps fuel st k index w).st.parts = st.parts
    ∧ (getLoop decompF md5F dir oMem e ps fuel st k index w).st.files = st.files
    ∧ (getLoop decompF md5F dir oMem e ps fuel st k index w).st.disk = st.disk
    ∧ (getLoop decompF md5F dir oMem e ps fuel st k index w).st.fileNext = st.fileNext
    ∧ (getLoop decompF md5F dir oMem e ps fuel st k index w).st.partNext = st.partNext
    ∧ (getLoop decompF md5F dir oMem e ps fuel st k index w).st.memLimit = st.memLimit := by
  intro fuel
  induction fuel with
  | zero => intro st k index w; exact ⟨rfl, rfl, rfl, rfl, rfl, rfl⟩
  | succ fuel ih =>
    intro st k index w
    by_cases hc : index * batch_size < ps.length
    · cases hq : oMem k with
      | false =>
        simp only [getLoop, hc, hq, Bool.false_eq_true, if_true, if_false]
        exact ih st (k+1) index w
      | true =>
        cases hp : memPred st with
        | false =>
          simp only [getLoop, hc, hp, hq, Bool.false_eq_true, if_true, if_false]
          exact ih st (k+1) index w
        | true =>
          cases he' : e (k+1) with
          | false =>
            cases hm2 : oMem (k+2) with
            | false =>
              simp only [getLoop, hc, hp, hq, he', hm2, Bool.false_eq_true, if_true, if_false]
              exact ⟨rfl, rfl, rfl, rfl, rfl, rfl⟩
            | true =>
              simp only [getLoop, hc, hp, hq, he', hm2, Bool.false_eq_true, if_true, if_false]
              exact ⟨rfl, rfl, rfl, rfl, rfl, rfl⟩
          | true =>
            cases hrb : readBatch decompF md5F (memGrant st).disk
              (((ps.drop (index * batch_size)).take
                ((if (index+1) * batch_size < ps.length then (index+1) * batch_size
                  else ps.length) - index * batch_size)).map
                (fun p => (p.hash, dir ++ p.path))) with
            | none =>
              cases hm2 : oMem (k+2) with
              | false =>
                simp only [getLoop, hc, hp, hq, he', hrb, hm2, Bool.false_eq_true,
                  if_true, if_false]
                exact ⟨rfl, rfl, rfl, rfl, rfl, rfl⟩
              | true =>
                simp only [getLoop, hc, hp, hq, he', hrb, hm2, Bool.false_eq_true,
                  if_true, if_false]
                exact ⟨rfl, rfl, rfl, rfl, rfl, rfl⟩
            | some rs =>
              cases hwl : writeLoop rs w with
              | mk b w2 =>
                cases b with
                | false =>
                  cases hm2 : oMem (k+2) with
                  | false =>
                    simp only [getLoop, hc, hp, hq, he', hrb, hwl, hm2, Bool.false_eq_true,
                      if_true, if_false]
                    exact ⟨rfl, rfl, rfl, rfl, rfl, rfl⟩
                  | true =>
                    simp only [getLoop, hc, hp, hq, he', hrb, hwl, hm2, Bool.false_eq_true,
                      if_true, if_false]
                    exact ⟨rfl, rfl, rfl, rfl, rfl, rfl⟩
                | true =>
                  cases hm2 : oMem (k+2) with
                  | false =>
                    simp only [getLoop, hc, hp, hq, he', hrb, hwl, hm2, Bool.false_eq_true,
                      if_true, if_false]
                    exact ih (memGrant st) (k+3) (index+1) w2
                  | true =>
                    simp only [getLoop, hc, hp, hq, he', hrb, hwl, hm2, Bool.false_eq_true,
                      if_true, if_false]
                    exact ih (memRelease (memGrant st)) (k+3) (index+1) w2
    · simp only [getLoop, hc, if_false]
      simp

lemma getLoop_completed (decompF : List Nat → List Nat) (md5F : List Nat → String)
    (dir : String) (oMem e : Nat → Bool) (ps : List FilePart) (B : Nat → List Nat) :
    ∀ (fuel : Nat) (st : SysState) (k index : Nat) (w : List Nat),
    (∀ j, j < ps.length → st.disk (dir ++ (ps.getD j default).path) = some (B j)) →
    (∀ j, j < ps.length → (ps.getD j default).hash = some (md5F (decompF (B j)))) →
    (getLoop decompF md5F dir oMem e ps fuel st k index w).outcome = GetOutcome.completed →
    (getLoop decompF md5F dir oMem e ps fuel st k index w).written
      = w ++ concatL (sliceMap (fun j => decompF (B j)) (index * batch_size)
          (ps.length - index * batch_size)) := by
  intro fuel
  induction fuel with
  | zero =>
    intro st k index w _ _ hout
    exact absurd hout (by simp [getLoop])
  | succ fuel ih =>
    intro st k index w hdisk hhash hout
    have hexp : (index + 1) * batch_size = index * batch_size + batch_size :=
      Nat.succ_mul index batch_size
    by_cases hc : index * batch_size < ps.length
    · cases hq : oMem k with
      | false =>
        simp only [getLoop, hc, hq, Bool.false_eq_true, if_true, if_false] at hout ⊢
        exact ih st (k+1) index w hdisk hhash hout
      | true =>
        cases hp : memPred st with
        | false =>
          simp only [getLoop, hc, hp, hq, Bool.false_eq_true, if_true, if_false] at hout ⊢
          exact ih st (k+1) index w hdisk hhash hout
        | true =>
          cases he' : e (k+1) with
          | false =>
            cases hm2 : oMem (k+2) with
            | false =>
              simp only [getLoop, hc, hp, hq, he', hm2, Bool.false_eq_true,
                if_true, if_false] at hout
              exact absurd hout (by simp)
            | true =>
              simp only [getLoop, hc, hp, hq, he', hm2, Bool.false_eq_true,
                if_true, if_false] at hout
              exact absurd hout (by simp)
          | true =>
            by_cases hstop : (index+1) * batch_size < ps.length
            · have hrb := readBatch_intact decompF md5F dir (memGrant st).disk ps B
                ((index+1) * batch_size - index * batch_size) (index * batch_size)
                (by omega)
                (fun j h1 h2 => hdisk j (by omega))
                (fun j h1 h2 => hhash j (by omega))
              have hwl := writeLoop_trues
                (sliceMap (fun j => decompF (B j)) (index * batch_size)
                  ((index+1) * batch_size - index * batch_size)) w
              simp only [getLoop, hc, hp, hq, he', hstop, hrb, hwl, Bool.false_eq_true,
                if_true, if_false] at hout ⊢
              cases hm2 : oMem (k+2) with
              | false =>
                simp only [hm2, Bool.false_eq_true, if_true, if_false] at hout ⊢
                rw [ih (memGrant st) (k+3) (index+1) _ hdisk hhash hout]
                rw [List.append_assoc, ← concatL_append]
                congr 1
                have hsum : ps.length - index * batch_size
                    = ((index+1) * batch_size - index * batch_size)
                      + (ps.length - (index+1) * batch_size) := by omega
                rw [hsum, sliceMap_append]
                have hstart : index * batch_size
                    + ((index+1) * batch_size - index * batch_size)
                    = (index+1) * batch_size := by omega
                rw [hstart]
              | true =>
                simp only [hm2, Bool.false_eq_true, if_true, if_false] at hout ⊢
                rw [ih (memRelease (memGrant st)) (k+3) (index+1) _ hdisk hhash hout]
                rw [List.append_assoc, ← concatL_append]
                congr 1
                have hsum : ps.length - index * batch_size
                    = ((index+1) * batch_size - index * batch_size)
                      + (ps.length - (index+1) * batch_size) := by omega
                rw [hsum, sliceMap_append]
                have hstart : index * batch_size
                    + ((index+1) * batch_size - index * batch_size)
                    = (index+1) * batch_size := by omega
                rw [hstart]
            · have hrb := readBatch_intact decompF md5F dir (memGrant st).disk ps B
                (ps.length - index * batch_size) (index * batch_size)
                (by omega)
                (fun j h1 h2 => hdisk j (by omega))
                (fun j h1 h2 => hhash j (by omega))
              have hwl := writeLoop_trues
                (sliceMap (fun j => decompF (B j)) (index * batch_size)
                  (ps.length - index * batch_size)) w
              simp only [getLoop, hc, hp, hq, he', hstop, hrb, hwl, Bool.false_eq_true,
                if_true, if_false] at hout ⊢
              cases hm2 : oMem (k+2) with
              | false =>
                simp only [hm2, Bool.false_eq_true, if_true, if_false] at hout ⊢
                rw [ih (memGrant st) (k+3) (index+1) _ hdisk hhash hout]
                have hz : ps.length - (index+1) * batch_size = 0 := by omega
                rw [hz]
                simp [sliceMap, concatL]
              | true =>
                simp only [hm2, Bool.false_eq_true, if_true, if_false] at hout ⊢
                rw [ih (memRelease (memGrant st)) (k+3) (index+1) _ hdisk hhash hout]
                have hz : ps.length - (index+1) * batch_size = 0 := by omega
                rw [hz]
                simp [sliceMap, concatL]
    · simp only [getLoop, hc, if_false]
      have hz : ps.length - index * batch_size = 0 := by omega
      rw [hz]
      simp [sliceMap, concatL]

lemma getLoop_mismatch (decompF : List Nat → List Nat) (md5F : List Nat → String)
    (dir : String) (oMem e : Nat → Bool) (ps : List FilePart) (B : Nat → List Nat) (j : Nat)
    (hMem : ∀ n, oMem n = true) (hE : ∀ n, e n = true) (hj : j < ps.length) :
    ∀ (fuel : Nat) (st : SysState) (k index : Nat) (w : List Nat),
    index * batch_size ≤ j →
    (∀ jq, jq < ps.length → st.disk (dir ++ (ps.getD jq default).path) = some (B jq)) →
    (∀ jq, jq < j → (ps.getD jq default).hash = some (md5F (decompF (B jq)))) →
    (ps.getD j default).hash ≠ some (md5F (decompF (B j))) →
    (getLoop decompF md5F dir oMem e ps fuel st k index w).outcome ≠ GetOutcome.outOfFuel →
    (getLoop decompF md5F dir oMem e ps fuel st k index w).outcome = GetOutcome.mismatchAbort
    ∧ (getLoop decompF md5F dir oMem e ps fuel st k index w).written
        = w ++ concatL (sliceMap (fun jq => decompF (B jq)) (index * batch_size)
            (j - index * batch_size))
    ∧ (getLoop decompF md5F dir oMem e ps fuel st k index w).st.memUsage = st.memUsage := by
  intro fuel
  induction fuel with
  | zero =>
    intro st k index w _ _ _ _ hne
    exact absurd rfl hne
  | succ fuel ih =>
    intro st k index w hle hdisk hintact hbad hne
    have hexp : (index + 1) * batch_size = index * batch_size + batch_size :=
      Nat.succ_mul index batch_size
    have hc : index * batch_size < ps.length := by omega
    have hq := hMem k
    cases hp : memPred st with
    | false =>
      simp only [getLoop, hc, hp, hq, Bool.false_eq_true, if_true, if_false] at hne ⊢
      exact ih st (k+1) index w hle hdisk hintact hbad hne
    | true =>
      have he' := hE (k+1)
      have hm2 := hMem (k+2)
      by_cases hstop : (index+1) * batch_size < ps.length
      · by_cases hjb : j < (index+1) * batch_size
        · obtain ⟨rest, hrb⟩ := readBatch_firstBad decompF md5F dir (memGrant st).disk ps B j
            ((index+1) * batch_size - index * batch_size) (index * batch_size)
            (by omega) (by omega) (by omega)
            (fun jq h1 h2 => hdisk jq (by omega))
            (fun jq h1 h2 => hintact jq (by omega))
            hbad
          have hwl := writeLoop_firstBad
            (sliceMap (fun jq => decompF (B jq)) (index * batch_size)
              (j - index * batch_size)) rest w
          simp only [getLoop, hc, hp, hq, he', hstop, hrb, hwl, hm2, Bool.false_eq_true,
            if_true, if_false]
          refine ⟨by trivial, by trivial, ?_⟩
          show st.memUsage + (needed_memory : Int) - (needed_memory : Int) = st.memUsage
          omega
        · have hrb := readBatch_intact decompF md5F dir (memGrant st).disk ps B
            ((index+1) * batch_size - index * batch_size) (index * batch_size)
            (by omega)
            (fun jq h1 h2 => hdisk jq (by omega))
            (fun jq h1 h2 => hintact jq (by omega))
          have hwl := writeLoop_trues
            (sliceMap (fun jq => decompF (B jq)) (index * batch_size)
              ((index+1) * batch_size - index * batch_size)) w
          simp only [getLoop, hc, hp, hq, he', hstop, hrb, hwl, hm2, Bool.false_eq_true,
            if_true, if_false] at hne ⊢
          obtain ⟨o1, o2, o3⟩ := ih (memRelease (memGrant st)) (k+3) (index+1) _
            (by omega) hdisk hintact hbad hne
          refine ⟨o1, ?_, ?_⟩
          · rw [o2, List.append_assoc, ← concatL_append]
            congr 1
            have hsum : j - index * batch_size
                = ((index+1) * batch_size - index * batch_size)
                  + (j - (index+1) * batch_size) := by omega
            rw [hsum, sliceMap_append]
            have hstart : index * batch_size
                + ((index+1) * batch_size - index * batch_size)
                = (index+1) * batch_size := by omega
            rw [hstart]
          · rw [o3]
            show st.memUsage + (needed_memory : Int) - (needed_memory : Int) = st.memUsage
            omega
      · obtain ⟨rest, hrb⟩ := readBatch_firstBad decompF md5F dir (memGrant st).disk ps B j
          (ps.length - index * batch_size) (index * batch_size)
          (by omega) (by omega) (by omega)
          (fun jq h1 h2 => hdisk jq (by omega))
          (fun jq h1 h2 => hintact jq (by omega))
          hbad
        have hwl := writeLoop_firstBad
          (sliceMap (fun jq => decompF (B jq)) (index * batch_size)
            (j - index * batch_size)) rest w
        simp only [getLoop, hc, hp, hq, he', hstop, hrb, hwl, hm2, Bool.false_eq_true,
          if_true, if_false]
        refine ⟨by trivial, by trivial, ?_⟩
        show st.memUsage + (needed_memory : Int) - (needed_memory : Int) = st.memUsage
        omega

lemma getCmd_completed (decompF : List Nat → List Nat) (md5F : List Nat → String)
    (dir : String) (oMem e : Nat → Bool) (fuel : Nat) (st : SysState) (fid : Nat)
    (f : File) (ps : List FilePart) (B : Nat → List Nat)
    (hf : st.files fid = some f) (hstat : f.status = true)
    (hps : st.parts fid = some ps)
    (hdisk : ∀ j, j < ps.length → st.disk (dir ++ (ps.getD j default).path) = some (B j))
    (hhash : ∀ j, j < ps.length → (ps.getD j default).hash = some (md5F (decompF (B j))))
    (hout : (getCmd decompF md5F dir oMem e fuel st fid).outcome = GetOutcome.completed) :
    (getCmd decompF md5F dir oMem e fuel st fid).written
      = concatL (sliceMap (fun j => decompF (B j)) 0 ps.length) := by
  cases he0 : e 0 with
  | false =>
    simp only [getCmd, hf, hstat, hps, he0, Bool.false_eq_true, if_true, if_false] at hout
    exact absurd hout (by simp)
  | true =>
    simp only [getCmd, hf, hstat, hps, he0, Bool.false_eq_true, if_true, if_false] at hout ⊢
    have := getLoop_completed decompF md5F dir oMem e ps B fuel st 1 0 [] hdisk hhash hout
    rw [this]
    have h0 : 0 * batch_size = 0 := by omega
    rw [h0, Nat.sub_zero, List.nil_append]

lemma getCmd_mismatch (decompF : List Nat → List Nat) (md5F : List Nat → String)
    (dir : String) (oMem e : Nat → Bool) (fuel : Nat) (st : SysState) (fid : Nat)
    (f : File) (ps : List FilePart) (B : Nat → List Nat) (j : Nat)
    (hMem : ∀ n, oMem n = true) (hE : ∀ n, e n = true)
    (hf : st.files fid = some f) (hstat : f.status = true)
    (hps : st.parts fid = some ps) (hj : j < ps.length)
    (hdisk : ∀ jq, jq < ps.length → st.disk (dir ++ (ps.getD jq default).path) = some (B jq))
    (hintact : ∀ jq, jq < j → (ps.getD jq default).hash = some (md5F (decompF (B jq))))
    (hbad : (ps.getD j default).hash ≠ some (md5F (decompF (B j))))
    (hne : (getCmd decompF md5F dir oMem e fuel st fid).outcome ≠ GetOutcome.outOfFuel) :
    (getCmd decompF md5F dir oMem e fuel st fid).outcome = GetOutcome.mismatchAbort
    ∧ (getCmd decompF md5F dir oMem e fuel st fid).written
        = concatL (sliceMap (fun jq => decompF (B jq)) 0 j)
    ∧ (getCmd decompF md5F dir oMem e fuel st fid).st.memUsage = st.memUsage := by
  have he0 := hE 0
  simp only [getCmd, hf, hstat, hps, he0, if_true] at hne ⊢
  obtain ⟨o1, o2, o3⟩ := getLoop_mismatch decompF md5F dir oMem e ps B j hMem hE hj
    fuel st 1 0 [] (by omega) hdisk hintact hbad hne
  refine ⟨o1, ?_, o3⟩
  rw [o2]
  have h0 : 0 * batch_size = 0 := by omega
  rw [h0, Nat.sub_zero, List.nil_append]

lemma getCmd_state_frame (decompF : List Nat → List Nat) (md5F : List Nat → String)
    (dir : String) (oMem e : Nat → Bool) (fuel : Nat) (st : SysState) (fid : Nat) :
    (getCmd decompF md5F dir oMem e fuel st fid).st.parts = st.parts
    ∧ (getCmd decompF md5F dir oMem e fuel st fid).st.files = st.files
    ∧ (getCmd decompF md5F dir oMem e fuel st fid).st.disk = st.disk
    ∧ (getCmd decompF md5F dir oMem e fuel st fid).st.fileNext = st.fileNext
    ∧ (getCmd decompF md5F dir oMem e fuel st fid).st.partNext = st.partNext
    ∧ (getCmd decompF md5F dir oMem e fuel st fid).st.memLimit = st.memLimit := by
  cases hf : st.files fid with
  | none =>
    simp only [getCmd, hf]
    exact ⟨by trivial, by trivial, by trivial, by trivial, by trivial, by trivial⟩
  | some f =>
    cases hstat : f.status with
    | false =>
      simp only [getCmd, hf, hstat, Bool.false_eq_true, if_false]
      exact ⟨by trivial, by trivial, by trivial, by trivial, by trivial, by trivial⟩
    | true =>
      cases hps : st.parts fid with
      | none =>
        simp only [getCmd, hf, hstat, hps, if_true]
        exact ⟨by trivial, by trivial, by trivial, by trivial, by trivial, by trivial⟩
      | some ps =>
        cases he0 : e 0 with
        | false =>
          simp only [getCmd, hf, hstat, hps, he0, Bool.false_eq_true, if_true, if_false]
          exact ⟨by trivial, by trivial, by trivial, by trivial, by trivial, by trivial⟩
        | true =>
          simp only [getCmd, hf, hstat, hps, he0, if_true]
          exact getLoop_frame decompF md5F dir oMem e ps fuel st 1 0 []

/-! ### Memory balance when the admission-monitor acquisitions succeed -/

lemma saveBatch_memUsage (compF : List Nat → List Nat) :
    ∀ (batch : List (List Nat × String)) (st : SysState),
    (saveBatch compF st batch).memUsage = st.memUsage := by
  intro batch
  induction batch with
  | nil => intro st; rfl
  | cons pr rest ih =>
    intro st
    obtain ⟨data, p⟩ := pr
    show (saveBatch compF (updDisk st p (some (compF data))) rest).memUsage = _
    rw [ih]
    rfl

lemma setHashes_memUsage (fid : Nat) :
    ∀ (l : List (FilePart × String)) (st : SysState),
    (setHashes fid st l).memUsage = st.memUsage := by
  intro l
  induction l with
  | nil => intro st; rfl
  | cons pr rest ih =>
    intro st
    obtain ⟨fp, h⟩ := pr
    show (setHashes fid _ rest).memUsage = _
    rw [ih]
    rfl

lemma finishPut_memUsage (st : SysState) (fid : Nat) :
    (finishPut st fid).memUsage = st.memUsage := by
  rw [finishPut]
  cases st.files fid <;> cases st.parts fid <;> rfl

lemma putItems_memUsage (dir : String) (fid : Nat) (oLock oMem : Nat → Bool)
    (hMem : ∀ n, oMem n = true) :
    ∀ (i : Nat) (st : SysState) (k : Nat) (rem : List Nat) (index : Nat)
      (batch : List (List Nat × String)) (staged : List FilePart),
    (∀ st' k' rem' index' batch' staged' fin,
      putItems dir fid oLock oMem i st k rem index batch staged
        = .ok st' k' rem' index' batch' staged' fin → st'.memUsage = st.memUsage)
    ∧ (∀ st' k',
      putItems dir fid oLock oMem i st k rem index batch staged
        = .abortReleased st' k' → st'.memUsage = st.memUsage - (needed_memory : Int))
    ∧ (∀ st' k',
      putItems dir fid oLock oMem i st k rem index batch staged
        ≠ .abortLeaked st' k') := by
  intro i
  induction i with
  | zero =>
    intro st k rem index batch staged
    refine ⟨?_, ?_, ?_⟩
    · intro st' k' rem' index' batch' staged' fin h
      have h0 : ItemsRes.ok st k rem index batch staged false
          = ItemsRes.ok st' k' rem' index' batch' staged' fin := h
      injection h0 with e1
      rw [← e1]
    · intro st' k' h
      exact absurd (h : ItemsRes.ok st k rem index batch staged false = _)
        (by intro hcon; exact ItemsRes.noConfusion hcon)
    · intro st' k' h
      exact absurd (h : ItemsRes.ok st k rem index batch staged false = _)
        (by intro hcon; exact ItemsRes.noConfusion hcon)
  | succ i ih =>
    intro st k rem index batch staged
    cases hq : oLock k with
    | false =>
      refine ⟨?_, ?_, ?_⟩
      · intro st' k' rem' index' batch' staged' fin h
        simp only [putItems, hq, Bool.false_eq_true, if_false, hMem (k+1), if_true] at h
        exact absurd h (by intro hcon; exact ItemsRes.noConfusion hcon)
      · intro st' k' h
        simp only [putItems, hq, Bool.false_eq_true, if_false, hMem (k+1), if_true] at h
        injection h with e1
        rw [← e1]
        rfl
      · intro st' k' h
        simp only [putItems, hq, Bool.false_eq_true, if_false, hMem (k+1), if_true] at h
        exact ItemsRes.noConfusion h
    | true =>
      match rem with
      | [] =>
        refine ⟨?_, ?_, ?_⟩
        · intro st' k' rem' index' batch' staged' fin h
          simp only [putItems, hq, if_true] at h
          injection h with e1
          rw [← e1]
        · intro st' k' h
          simp only [putItems, hq, if_true] at h
          exact absurd h (by intro hcon; exact ItemsRes.noConfusion hcon)
        · intro st' k' h
          simp only [putItems, hq, if_true] at h
          exact ItemsRes.noConfusion h
      | x :: xs =>
        obtain ⟨ih1, ih2, ih3⟩ := ih
          (updParts { st with partNext := st.partNext + 1 } fid
            (some ((({ st with partNext := st.partNext + 1 } : SysState).parts fid).getD []
              ++ [mkFilePart st.partNext fid none false index])))
          (k+1) ((x :: xs).drop part_size) (index+1)
          (batch ++ [((x :: xs).take part_size,
            dir ++ (mkFilePart st.partNext fid none false index).path)])
          (staged ++ [mkFilePart st.partNext fid none false index])
        refine ⟨?_, ?_, ?_⟩
        · intro st' k' rem' index' batch' staged' fin h
          simp only [putItems, hq, if_true] at h
          exact ih1 st' k' rem' index' batch' staged' fin h
        · intro st' k' h
          simp only [putItems, hq, if_true] at h
          exact ih2 st' k' h
        · intro st' k' h
          simp only [putItems, hq, if_true] at h
          exact ih3 st' k' h

lemma putLoop_memUsage (compF : List Nat → List Nat) (md5F : List Nat → String)
    (dir : String) (oMem oLock e : Nat → Bool) (fid : Nat)
    (hMem : ∀ n, oMem n = true) :
    ∀ (fuel : Nat) (st : SysState) (k : Nat) (rem : List Nat) (index : Nat),
    (putLoop compF md5F dir oMem oLock e fid fuel st k rem index).st.memUsage
      = st.memUsage := by
  intro fuel
  induction fuel with
  | zero => intro st k rem index; rfl
  | succ fuel ih =>
    intro st k rem index
    have hq := hMem k
    cases hpred : memPred st with
    | false =>
      simp only [putLoop, hq, hpred, Bool.false_eq_true, if_true, if_false]
      exact ih st (k+1) rem index
    | true =>
      obtain ⟨q1, q2, q3⟩ := putItems_memUsage dir fid oLock oMem hMem batch_size
        (memGrant st) (k+1) rem index [] []
      cases hitems : putItems dir fid oLock oMem batch_size (memGrant st) (k+1) rem index [] []
        with
      | abortReleased st2 k2 =>
        simp only [putLoop, hq, hpred, hitems, if_true]
        have := q2 st2 k2 hitems
        rw [this]
        show st.memUsage + (needed_memory : Int) - (needed_memory : Int) = st.memUsage
        omega
      | abortLeaked st2 k2 =>
        exact absurd hitems (q3 st2 k2)
      | ok st2 k2 rem2 index2 batch staged fin =>
        have hmu2 : st2.memUsage = st.memUsage + (needed_memory : Int) :=
          q1 st2 k2 rem2 index2 batch staged fin hitems
        have hm2 := hMem (k2+1)
        cases he2 : e k2 with
        | false =>
          simp only [putLoop, hq, hpred, hitems, he2, hm2, Bool.false_eq_true,
            if_true, if_false]
          show st2.memUsage - (needed_memory : Int) = st.memUsage
          omega
        | true =>
          have hmu4 : (setHashes fid (saveBatch compF st2 batch)
              (staged.zip (savedHashes md5F batch))).memUsage = st2.memUsage := by
            rw [setHashes_memUsage, saveBatch_memUsage]
          cases fin with
          | true =>
            simp only [putLoop, hq, hpred, hitems, he2, hm2, if_true]
            rw [finishPut_memUsage]
            show (setHashes fid (saveBatch compF st2 batch)
              (staged.zip (savedHashes md5F batch))).memUsage - (needed_memory : Int)
                = st.memUsage
            rw [hmu4]
            omega
          | false =>
            simp only [putLoop, hq, hpred, hitems, he2, hm2, if_true, Bool.false_eq_true,
              if_false]
            rw [ih _ (k2+2) rem2 index2]
            show (setHashes fid (saveBatch compF st2 batch)
              (staged.zip (savedHashes md5F batch))).memUsage - (needed_memory : Int)
                = st.memUsage
            rw [hmu4]
            omega

lemma putCmd_memUsage (compF : List Nat → List Nat) (md5F : List Nat → String)
    (dir name : String) (content : List Nat) (oMem oLock e : Nat → Bool)
    (fuel : Nat) (st : SysState) (hMem : ∀ n, oMem n = true) :
    (putCmd compF md5F dir name content oMem oLock e fuel st).st.memUsage = st.memUsage := by
  cases hq : oLock 0 with
  | false =>
    simp only [putCmd, hq, Bool.false_eq_true, if_false]
  | true =>
    cases he : e 1 with
    | false =>
      simp only [putCmd, hq, he, Bool.false_eq_true, if_true, if_false]
      rfl
    | true =>
      simp only [putCmd, hq, he, if_true]
      rw [putLoop_memUsage compF md5F dir oMem oLock e st.fileNext hMem]
      rfl

lemma getLoop_memUsage (decompF : List Nat → List Nat) (md5F : List Nat → String)
    (dir : String) (oMem e : Nat → Bool) (ps : List FilePart)
    (hMem : ∀ n, oMem n = true) :
    ∀ (fuel : Nat) (st : SysState) (k index : Nat) (w : List Nat),
    (getLoop decompF md5F dir oMem e ps fuel st k index w).st.memUsage = st.memUsage := by
  intro fuel
  induction fuel with
  | zero => intro st k index w; rfl
  | succ fuel ih =>
    intro st k index w
    by_cases hc : index * batch_size < ps.length
    · have hq := hMem k
      have hm2 := hMem (k+2)
      cases hp : memPred st with
      | false =>
        simp only [getLoop, hc, hp, hq, Bool.false_eq_true, if_true, if_false]
        exact ih st (k+1) index w
      | true =>
        cases he' : e (k+1) with
        | false =>
          simp only [getLoop, hc, hp, hq, he', hm2, Bool.false_eq_true, if_true, if_false]
          show st.memUsage + (needed_memory : Int) - (needed_memory : Int) = st.memUsage
          omega
        | true =>
          cases hrb : readBatch decompF md5F (memGrant st).disk
            (((ps.drop (index * batch_size)).take
              ((if (index+1) * batch_size < ps.length then (index+1) * batch_size
                else ps.length) - index * batch_size)).map
              (fun p => (p.hash, dir ++ p.path))) with
          | none =>
            simp only [getLoop, hc, hp, hq, he', hrb, hm2, if_true]
            show st.memUsage + (needed_memory : Int) - (needed_memory : Int) = st.memUsage
            omega
          | some rs =>
            cases hwl : writeLoop rs w with
            | mk b w2 =>
              cases b with
              | false =>
                simp only [getLoop, hc, hp, hq, he', hrb, hwl, hm2, if_true]
                show st.memUsage + (needed_memory : Int) - (needed_memory : Int)
                    = st.memUsage
                omega
              | true =>
                simp only [getLoop, hc, hp, hq, he', hrb, hwl, hm2, if_true]
                rw [ih (memRelease (memGrant st)) (k+3) (index+1) w2]
                show st.memUsage + (needed_memory : Int) - (needed_memory : Int)
                    = st.memUsage
                omega
    · simp only [getLoop, hc, if_false]

lemma getCmd_memUsage (decompF : List Nat → List Nat) (md5F : List Nat → String)
    (dir : String) (oMem e : Nat → Bool) (fuel : Nat) (st : SysState) (fid : Nat)
    (hMem : ∀ n, oMem n = true) :
    (getCmd decompF md5F dir oMem e fuel st fid).st.memUsage = st.memUsage := by
  cases hf : st.files fid with
  | none => simp only [getCmd, hf]
  | some f =>
    cases hstat : f.status with
    | false => simp only [getCmd, hf, hstat, Bool.false_eq_true, if_false]
    | true =>
      cases hps : st.parts fid with
      | none => simp only [getCmd, hf, hstat, hps, if_true]
      | some ps =>
        cases he0 : e 0 with
        | false =>
          simp only [getCmd, hf, hstat, hps, he0, Bool.false_eq_true, if_true, if_false]
        | true =>
          simp only [getCmd, hf, hstat, hps, he0, if_true]
          exact getLoop_memUsage decompF md5F dir oMem e ps hMem fuel st 1 0 []

/-! ### Characterization of the delete erase walk -/

lemma getLastD_indep : ∀ (l : List FilePart) (a b : FilePart), l ≠ [] →
    l.getLastD a = l.getLastD b := by
  intro l a b h
  match l with
  | x :: xs => rfl

lemma dropLast_getLastD : ∀ (s : List FilePart), s ≠ [] →
    s.dropLast ++ [s.getLastD default] = s := by
  intro s
  induction s with
  | nil => intro h; exact absurd rfl h
  | cons a l ih =>
    intro _
    match l, ih with
    | [], _ => rfl
    | b :: t, ih =>
      have hrec := ih (by simp)
      show (a :: (b :: t).dropLast) ++ [(a :: b :: t).getLastD default] = a :: b :: t
      rw [getLastD_indep (a :: b :: t) default default (by simp)]
      show a :: ((b :: t).dropLast ++ [(b :: t).getLastD a]) = _
      rw [getLastD_indep (b :: t) a default (by simp), hrec]

lemma eraseIdx_middle : ∀ (C : List FilePart) (y : FilePart) (D : List FilePart),
    (C ++ y :: D).eraseIdx C.length = C ++ D := by
  intro C
  induction C with
  | nil => intro y D; rfl
  | cons c C ih =>
    intro y D
    show c :: (C ++ y :: D).eraseIdx C.length = _
    rw [ih]
    rfl

lemma deleteEraseFold_keepAfter :
    ∀ (rs : List Bool) (A s B2 : List FilePart), s.length = rs.length →
    deleteEraseFold (A ++ s ++ B2) (A.length + s.length - 1) rs
      = A ++ keepAfter s rs ++ B2 := by
  intro rs
  induction rs with
  | nil =>
    intro A s B2 hlen
    have : s = [] := List.eq_nil_of_length_eq_zero hlen
    subst this
    rfl
  | cons r rest ih =>
    intro A s B2 hlen
    have hne : s ≠ [] := by
      intro h
      subst h
      simp at hlen
    have hsplit : s.dropLast ++ [s.getLastD default] = s := dropLast_getLastD s hne
    have hlen' : s.dropLast.length = rest.length := by
      rw [List.length_dropLast]
      simp at hlen
      omega
    have hpos : A.length + s.length - 1 = A.length + s.dropLast.length := by
      rw [List.length_dropLast]
      have := List.length_pos.mpr hne
      omega
    cases r with
    | true =>
      show deleteEraseFold (if true then (A ++ s ++ B2).eraseIdx (A.length + s.length - 1)
        else _) (A.length + s.length - 1 - 1) rest = _
      rw [if_pos rfl]
      have herase : (A ++ s ++ B2).eraseIdx (A.length + s.length - 1)
          = (A ++ s.dropLast) ++ B2 := by
        have h1 : A ++ s ++ B2 = (A ++ s.dropLast) ++ (s.getLastD default :: B2) := by
          conv_lhs => rw [← hsplit]
          simp
        rw [h1, hpos]
        have hlenA : A.length + s.dropLast.length = (A ++ s.dropLast).length := by
          simp
        rw [hlenA, eraseIdx_middle]
      rw [herase]
      have hstep : (A ++ s.dropLast) ++ B2 = A ++ s.dropLast ++ B2 := by simp
      rw [hstep]
      have hidx : A.length + s.length - 1 - 1 = A.length + s.dropLast.length - 1 := by
        rw [List.length_dropLast]
        have := List.length_pos.mpr hne
        omega
      rw [hidx, ih A s.dropLast B2 hlen']
      show A ++ keepAfter s.dropLast rest ++ B2 = A ++ keepAfter s (true :: rest) ++ B2
      rw [keepAfter, if_pos rfl]
    | false =>
      show deleteEraseFold (if false then _ else A ++ s ++ B2)
        (A.length + s.length - 1 - 1) rest = _
      rw [if_neg (by simp)]
      have hform : A ++ s ++ B2 = A ++ s.dropLast ++ (s.getLastD default :: B2) := by
        conv_lhs => rw [← hsplit]
        simp
      rw [hform]
      have hidx : A.length + s.length - 1 - 1 = A.length + s.dropLast.length - 1 := by
        rw [List.length_dropLast]
        have := List.length_pos.mpr hne
        omega
      rw [hidx, ih A s.dropLast (s.getLastD default :: B2) hlen']
      show _ = A ++ keepAfter s (false :: rest) ++ B2
      rw [keepAfter, if_neg (by simp)]
      simp

lemma keepAfter_all_true : ∀ (s : List FilePart),
    keepAfter s (List.replicate s.length true) = [] := by
  intro s
  induction s using List.reverseRecOn with
  | nil => rfl
  | append_singleton l a ih =>
    have hlen : (l ++ [a]).length = l.length + 1 := by simp
    rw [hlen]
    show keepAfter (l ++ [a]) (true :: List.replicate l.length true) = []
    rw [keepAfter, if_pos rfl, List.dropLast_concat]
    exact ih

/-! ### State facts for the delete pipeline -/

lemma removeBatch_frame : ∀ (paths : List String) (st : SysState),
    (removeBatch st paths).1.files = st.files
    ∧ (removeBatch st paths).1.parts = st.parts
    ∧ (removeBatch st paths).1.fileNext = st.fileNext
    ∧ (removeBatch st paths).1.partNext = st.partNext
    ∧ (removeBatch st paths).1.memUsage = st.memUsage
    ∧ (removeBatch st paths).1.memLimit = st.memLimit := by
  intro paths
  induction paths with
  | nil => intro st; exact ⟨rfl, rfl, rfl, rfl, rfl, rfl⟩
  | cons p rest ih =>
    intro st
    cases hd : st.disk p with
    | some c =>
      simp only [removeBatch, hd]
      exact ih (updDisk st p none)
    | none =>
      simp only [removeBatch, hd]
      exact ih st

lemma updParts_removeBatch_facts (st : SysState) (fid : Nat)
    (v v2 : List FilePart) (paths : List String) :
    (updParts (removeBatch (updParts st fid (some v)) paths).1 fid (some v2)).files = st.files
    ∧ ((updParts (removeBatch (updParts st fid (some v)) paths).1 fid (some v2)).parts
        fid).isSome
    ∧ (∀ g, g ≠ fid →
        (updParts (removeBatch (updParts st fid (some v)) paths).1 fid (some v2)).parts g
          = st.parts g)
    ∧ (updParts (removeBatch (updParts st fid (some v)) paths).1 fid
        (some v2)).fileNext = st.fileNext
    ∧ (updParts (removeBatch (updParts st fid (some v)) paths).1 fid
        (some v2)).partNext = st.partNext
    ∧ (updParts (removeBatch (updParts st fid (some v)) paths).1 fid
        (some v2)).memUsage = st.memUsage
    ∧ (updParts (removeBatch (updParts st fid (some v)) paths).1 fid
        (some v2)).memLimit = st.memLimit := by
  obtain ⟨r1, r2, r3, r4, r5, r6⟩ := removeBatch_frame paths (updParts st fid (some v))
  refine ⟨?_, ?_, ?_, ?_, ?_, ?_, ?_⟩
  · show (removeBatch (updParts st fid (some v)) paths).1.files = st.files
    rw [r1]
    rfl
  · simp [updParts]
  · intro g hg
    show (if g = fid then some v2
        else (removeBatch (updParts st fid (some v)) paths).1.parts g) = st.parts g
    rw [if_neg hg, congrFun r2 g]
    simp [updParts, hg]
  · show (removeBatch (updParts st fid (some v)) paths).1.fileNext = st.fileNext
    rw [r3]
    rfl
  · show (removeBatch (updParts st fid (some v)) paths).1.partNext = st.partNext
    rw [r4]
    rfl
  · show (removeBatch (updParts st fid (some v)) paths).1.memUsage = st.memUsage
    rw [r5]
    rfl
  · show (removeBatch (updParts st fid (some v)) paths).1.memLimit = st.memLimit
    rw [r6]
    rfl

lemma deleteBatchStep_facts (dir : String) (fid : Nat) (index : Nat) (st : SysState) :
    (deleteBatchStep dir fid index st).files = st.files
    ∧ ((deleteBatchStep dir fid index st).parts fid).isSome
    ∧ (∀ g, g ≠ fid → (deleteBatchStep dir fid index st).parts g = st.parts g)
    ∧ (deleteBatchStep dir fid index st).fileNext = st.fileNext
    ∧ (deleteBatchStep dir fid index st).partNext = st.partNext
    ∧ (deleteBatchStep dir fid index st).memUsage = st.memUsage
    ∧ (deleteBatchStep dir fid index st).memLimit = st.memLimit := by
  exact updParts_removeBatch_facts st fid _ _ _

lemma deleteLoop_facts (dir : String) (fid : Nat) :
    ∀ (index : Nat) (st : SysState),
    (deleteLoop dir fid index st).files = st.files
    ∧ ((deleteLoop dir fid index st).parts fid).isSome
    ∧ (∀ g, g ≠ fid → (deleteLoop dir fid index st).parts g = st.parts g) := by
  intro index
  induction index with
  | zero =>
    intro st
    obtain ⟨d1, d2, d3, _, _, _, _⟩ := deleteBatchStep_facts dir fid 0 st
    exact ⟨d1, d2, d3⟩
  | succ i ih =>
    intro st
    obtain ⟨d1, d2, d3, _, _, _, _⟩ := deleteBatchStep_facts dir fid (i+1) st
    obtain ⟨l1, l2, l3⟩ := ih (deleteBatchStep dir fid (i+1) st)
    refine ⟨?_, l2, ?_⟩
    · show (deleteLoop dir fid i (deleteBatchStep dir fid (i+1) st)).files = st.files
      rw [l1, d1]
    · intro g hg
      show (deleteLoop dir fid i (deleteBatchStep dir fid (i+1) st)).parts g = st.parts g
      rw [l3 g hg, d3 g hg]

lemma deleteCmd_completed_facts (dir : String) (fid : Nat) (st : SysState)
    (f : File) (ps : List FilePart)
    (hf : st.files fid = some f) (hstat : f.status = true)
    (hps : st.parts fid = some ps) :
    (deleteCmd dir fid st).1 = DelOutcome.completed
    ∧ (deleteCmd dir fid st).2.files fid = none
    ∧ ((deleteCmd dir fid st).2.parts fid).isSome
    ∧ (∀ g, g ≠ fid → (deleteCmd dir fid st).2.files g = st.files g)
    ∧ (∀ g, g ≠ fid → (deleteCmd dir fid st).2.parts g = st.parts g) := by
  have hps1 : (updFiles st fid (some { f with status := false })).parts fid = some ps := hps
  simp only [deleteCmd, hf, hstat, hps1, if_true]
  obtain ⟨l1, l2, l3⟩ := deleteLoop_facts dir fid (ps.length / batch_size)
    (updFiles st fid (some { f with status := false }))
  refine ⟨by trivial, ?_, ?_, ?_, ?_⟩
  · simp [updFiles]
  · exact l2
  · intro g hg
    show (if g = fid then none
        else (deleteLoop dir fid (ps.length / batch_size)
          (updFiles st fid (some { f with status := false }))).files g) = st.files g
    rw [if_neg hg, congrFun l1 g]
    simp [updFiles, hg]
  · intro g hg
    show (deleteLoop dir fid (ps.length / batch_size)
        (updFiles st fid (some { f with status := false }))).parts g = st.parts g
    rw [l3 g hg]
    simp [updFiles, hg]

/-! ### Frame facts for the put pipeline on failing runs -/

lemma saveBatch_files_parts (compF : List Nat → List Nat) :
    ∀ (batch : List (List Nat × String)) (st : SysState),
    (saveBatch compF st batch).files = st.files
    ∧ (saveBatch compF st batch).parts = st.parts := by
  intro batch
  induction batch with
  | nil => intro st; exact ⟨rfl, rfl⟩
  | cons pr rest ih =>
    intro st
    obtain ⟨data, p⟩ := pr
    obtain ⟨h1, h2⟩ := ih (updDisk st p (some (compF data)))
    exact ⟨h1, h2⟩

lemma setHashes_files_partsMono (fid : Nat) :
    ∀ (l : List (FilePart × String)) (st : SysState),
    (setHashes fid st l).files = st.files
    ∧ (∀ g, (st.parts g).isSome → ((setHashes fid st l).parts g).isSome) := by
  intro l
  induction l with
  | nil => intro st; exact ⟨rfl, fun g h => h⟩
  | cons pr rest ih =>
    intro st
    obtain ⟨fp, h⟩ := pr
    obtain ⟨h1, h2⟩ := ih (updParts st fid (some (modifyIdx ((st.parts fid).getD []) fp.index
      (fun q => { q with hash := some h, status := true }))))
    refine ⟨h1, ?_⟩
    intro g hg
    apply h2
    by_cases hgf : g = fid
    · subst hgf
      simp [updParts]
    · simpa [updParts, hgf] using hg

lemma finishPut_parts (st : SysState) (fid : Nat) :
    (finishPut st fid).parts = st.parts := by
  rw [finishPut]
  cases st.files fid <;> cases st.parts fid <;> rfl

lemma putItems_state_frame (dir : String) (fid : Nat) (oLock oMem : Nat → Bool) :
    ∀ (i : Nat) (st : SysState) (k : Nat) (rem : List Nat) (index : Nat)
      (batch : List (List Nat × String)) (staged : List FilePart),
    (∀ st' k' rem' index' batch' staged' fin,
      putItems dir fid oLock oMem i st k rem index batch staged
        = .ok st' k' rem' index' batch' staged' fin →
      st'.files = st.files ∧ (∀ g, (st.parts g).isSome → (st'.parts g).isSome))
    ∧ (∀ st' k',
      putItems dir fid oLock oMem i st k rem index batch staged = .abortReleased st' k' →
      st'.files = st.files ∧ (∀ g, (st.parts g).isSome → (st'.parts g).isSome))
    ∧ (∀ st' k',
      putItems dir fid oLock oMem i st k rem index batch staged = .abortLeaked st' k' →
      st'.files = st.files ∧ (∀ g, (st.parts g).isSome → (st'.parts g).isSome)) := by
  intro i
  induction i with
  | zero =>
    intro st k rem index batch staged
    refine ⟨?_, ?_, ?_⟩
    · intro st' k' rem' index' batch' staged' fin h
      have h0 : ItemsRes.ok st k rem index batch staged false
          = ItemsRes.ok st' k' rem' index' batch' staged' fin := h
      injection h0 with e1
      rw [← e1]
      exact ⟨rfl, fun g hg => hg⟩
    · intro st' k' h
      exact absurd (h : ItemsRes.ok st k rem index batch staged false = _)
        (by intro hcon; exact ItemsRes.noConfusion hcon)
    · intro st' k' h
      exact absurd (h : ItemsRes.ok st k rem index batch staged false = _)
        (by intro hcon; exact ItemsRes.noConfusion hcon)
  | succ i ih =>
    intro st k rem index batch staged
    cases hq : oLock k with
    | false =>
      cases hm : oMem (k+1) with
      | true =>
        refine ⟨?_, ?_, ?_⟩
        · intro st' k' rem' index' batch' staged' fin h
          simp only [putItems, hq, hm, Bool.false_eq_true, if_false, if_true] at h
          exact absurd h (by intro hcon; exact ItemsRes.noConfusion hcon)
        · intro st' k' h
          simp only [putItems, hq, hm, Bool.false_eq_true, if_false, if_true] at h
          injection h with e1
          rw [← e1]
          exact ⟨rfl, fun g hg => hg⟩
        · intro st' k' h
          simp only [putItems, hq, hm, Bool.false_eq_true, if_false, if_true] at h
          exact ItemsRes.noConfusion h
      | false =>
        refine ⟨?_, ?_, ?_⟩
        · intro st' k' rem' index' batch' staged' fin h
          simp only [putItems, hq, hm, Bool.false_eq_true, if_false] at h
          exact absurd h (by intro hcon; exact ItemsRes.noConfusion hcon)
        · intro st' k' h
          simp only [putItems, hq, hm, Bool.false_eq_true, if_false] at h
          exact ItemsRes.noConfusion h
        · intro st' k' h
          simp only [putItems, hq, hm, Bool.false_eq_true, if_false] at h
          injection h with e1
          rw [← e1]
          exact ⟨rfl, fun g hg => hg⟩
    | true =>
      match rem with
      | [] =>
        refine ⟨?_, ?_, ?_⟩
        · intro st' k' rem' index' batch' staged' fin h
          simp only [putItems, hq, if_true] at h
          injection h with e1
          rw [← e1]
          exact ⟨rfl, fun g hg => hg⟩
        · intro st' k' h
          simp only [putItems, hq, if_true] at h
          exact absurd h (by intro hcon; exact ItemsRes.noConfusion hcon)
        · intro st' k' h
          simp only [putItems, hq, if_true] at h
          exact ItemsRes.noConfusion h
      | x :: xs =>
        obtain ⟨ih1, ih2, ih3⟩ := ih
          (updParts { st with partNext := st.partNext + 1 } fid
            (some ((({ st with partNext := st.partNext + 1 } : SysState).parts fid).getD []
              ++ [mkFilePart st.partNext fid none false index])))
          (k+1) ((x :: xs).drop part_size) (index+1)
          (batch ++ [((x :: xs).take part_size,
            dir ++ (mkFilePart st.partNext fid none false index).path)])
          (staged ++ [mkFilePart st.partNext fid none false index])
        have hmono : ∀ g, (st.parts g).isSome →
            ((updParts { st with partNext := st.partNext + 1 } fid
              (some ((({ st with partNext := st.partNext + 1 } : SysState).parts fid).getD []
                ++ [mkFilePart st.partNext fid none false index]))).parts g).isSome := by
          intro g hg
          by_cases hgf : g = fid
          · subst hgf
            simp [updParts]
          · simpa [updParts, hgf] using hg
        refine ⟨?_, ?_, ?_⟩
        · intro st' k' rem' index' batch' staged' fin h
          simp only [putItems, hq, if_true] at h
          obtain ⟨e1, e2⟩ := ih1 st' k' rem' index' batch' staged' fin h
          exact ⟨e1, fun g hg => e2 g (hmono g hg)⟩
        · intro st' k' h
          simp only [putItems, hq, if_true] at h
          obtain ⟨e1, e2⟩ := ih2 st' k' h
          exact ⟨e1, fun g hg => e2 g (hmono g hg)⟩
        · intro st' k' h
          simp only [putItems, hq, if_true] at h
          obtain ⟨e1, e2⟩ := ih3 st' k' h
          exact ⟨e1, fun g hg => e2 g (hmono g hg)⟩

lemma putLoop_state (compF : List Nat → List Nat) (md5F : List Nat → String)
    (dir : String) (oMem oLock e : Nat → Bool) (fid : Nat) :
    ∀ (fuel : Nat) (st : SysState) (k : Nat) (rem : List Nat) (index : Nat),
    ((putLoop compF md5F dir oMem oLock e fid fuel st k rem index).outcome
        ≠ PutOutcome.completed →
      (putLoop compF md5F dir oMem oLock e fid fuel st k rem index).st.files = st.files)
    ∧ (∀ g, (st.parts g).isSome →
        ((putLoop compF md5F dir oMem oLock e fid fuel st k rem index).st.parts g).isSome) := by
  intro fuel
  induction fuel with
  | zero => intro st k rem index; exact ⟨fun _ => rfl, fun g hg => hg⟩
  | succ fuel ih =>
    intro st k rem index
    cases hq : oMem k with
    | false =>
      simp only [putLoop, hq, Bool.false_eq_true, if_false]
      exact ih st (k+1) rem index
    | true =>
      cases hpred : memPred st with
      | false =>
        simp only [putLoop, hq, hpred, Bool.false_eq_true, if_true, if_false]
        exact ih st (k+1) rem index
      | true =>
        obtain ⟨q1, q2, q3⟩ := putItems_state_frame dir fid oLock oMem batch_size
          (memGrant st) (k+1) rem index [] []
        cases hitems : putItems dir fid oLock oMem batch_size (memGrant st) (k+1)
          rem index [] [] with
        | abortReleased st2 k2 =>
          simp only [putLoop, hq, hpred, hitems, if_true]
          obtain ⟨e1, e2⟩ := q2 st2 k2 hitems
          exact ⟨fun _ => e1, fun g hg => e2 g hg⟩
        | abortLeaked st2 k2 =>
          simp only [putLoop, hq, hpred, hitems, if_true]
          obtain ⟨e1, e2⟩ := q3 st2 k2 hitems
          exact ⟨fun _ => e1, fun g hg => e2 g hg⟩
        | ok st2 k2 rem2 index2 batch staged fin =>
          obtain ⟨e1, e2⟩ := q1 st2 k2 rem2 index2 batch staged fin hitems
          obtain ⟨sb1, sb2⟩ := saveBatch_files_parts compF batch st2
          obtain ⟨sh1, sh2⟩ := setHashes_files_partsMono fid
            (staged.zip (savedHashes md5F batch)) (saveBatch compF st2 batch)
          cases he2 : e k2 with
          | false =>
            cases hm2 : oMem (k2+1) with
            | true =>
              simp only [putLoop, hq, hpred, hitems, he2, hm2, Bool.false_eq_true,
                if_true, if_false]
              exact ⟨fun _ => e1, fun g hg => e2 g hg⟩
            | false =>
              simp only [putLoop, hq, hpred, hitems, he2, hm2, Bool.false_eq_true,
                if_true, if_false]
              exact ⟨fun _ => e1, fun g hg => e2 g hg⟩
          | true =>
            have hst4files : (setHashes fid (saveBatch compF st2 batch)
                (staged.zip (savedHashes md5F batch))).files = st.files := by
              rw [sh1, sb1, e1]
              rfl
            have hst4mono : ∀ g, (st.parts g).isSome →
                ((setHashes fid (saveBatch compF st2 batch)
                  (staged.zip (savedHashes md5F batch))).parts g).isSome := by
              intro g hg
              apply sh2
              rw [congrFun sb2 g]
              exact e2 g hg
            cases hm2 : oMem (k2+1) with
            | true =>
              cases fin with
              | true =>
                simp only [putLoop, hq, hpred, hitems, he2, hm2, if_true]
                refine ⟨fun hcon => absurd rfl hcon, ?_⟩
                intro g hg
                rw [congrFun (finishPut_parts _ fid) g]
                exact hst4mono g hg
              | false =>
                simp only [putLoop, hq, hpred, hitems, he2, hm2, if_true,
                  Bool.false_eq_true, if_false]
                obtain ⟨ihf, ihm⟩ := ih (memRelease (setHashes fid (saveBatch compF st2 batch)
                  (staged.zip (savedHashes md5F batch)))) (k2+2) rem2 index2
                refine ⟨?_, ?_⟩
                · intro hne
                  rw [ihf hne]
                  exact hst4files
                · intro g hg
                  exact ihm g (hst4mono g hg)
            | false =>
              cases fin with
              | true =>
                simp only [putLoop, hq, hpred, hitems, he2, hm2, if_true,
                  Bool.false_eq_true, if_false]
                refine ⟨fun hcon => absurd rfl hcon, ?_⟩
                intro g hg
                rw [congrFun (finishPut_parts _ fid) g]
                exact hst4mono g hg
              | false =>
                simp only [putLoop, hq, hpred, hitems, he2, hm2, if_true,
                  Bool.false_eq_true, if_false]
                obtain ⟨ihf, ihm⟩ := ih (setHashes fid (saveBatch compF st2 batch)
                  (staged.zip (savedHashes md5F batch))) (k2+2) rem2 index2
                refine ⟨?_, ?_⟩
                · intro hne
                  rw [ihf hne]
                  exact hst4files
                · intro g hg
                  exact ihm g (hst4mono g hg)

lemma putCmd_state (compF : List Nat → List Nat) (md5F : List Nat → String)
    (dir name : String) (content : List Nat) (oMem oLock e : Nat → Bool)
    (fuel : Nat) (st : SysState) :
    ((putCmd compF md5F dir name content oMem oLock e fuel st).outcome
        ≠ PutOutcome.completed →
      (putCmd compF md5F dir name content oMem oLock e fuel st).outcome
        ≠ PutOutcome.fileIdLockTimeout →
      (putCmd compF md5F dir name content oMem oLock e fuel st).st.files st.fileNext
        = some ⟨st.fileNext, name, false, 0⟩)
    ∧ (∀ g, (st.parts g).isSome →
        ((putCmd compF md5F dir name content oMem oLock e fuel st).st.parts g).isSome) := by
  cases hq : oLock 0 with
  | false =>
    simp only [putCmd, hq, Bool.false_eq_true, if_false]
    exact ⟨fun _ hcon => absurd rfl hcon, fun g hg => hg⟩
  | true =>
    cases he : e 1 with
    | false =>
      simp only [putCmd, hq, he, Bool.false_eq_true, if_true, if_false]
      refine ⟨fun _ _ => ?_, fun g hg => hg⟩
      simp [updFiles]
    | true =>
      simp only [putCmd, hq, he, if_true]
      obtain ⟨pf, pm⟩ := putLoop_state compF md5F dir oMem oLock e st.fileNext fuel
        (updParts (updFiles { st with fileNext := st.fileNext + 1 } st.fileNext
          (some ⟨st.fileNext, name, false, 0⟩)) st.fileNext (some [])) 2 content 0
      refine ⟨?_, ?_⟩
      · intro hne _
        rw [congrFun (pf hne) st.fileNext]
        simp [updParts, updFiles]
      · intro g hg
        apply pm
        by_cases hgf : g = st.fileNext
        · subst hgf
          simp [updParts]
        · simpa [updParts, updFiles, hgf] using hg

/-! ### Shape of the stored part sequence -/

lemma putSpecParts_getD (md5F : List Nat → String) (fid : Nat) :
    ∀ (cs : List (List Nat)) (pid idx j : Nat), j < cs.length →
    (putSpecParts md5F fid pid idx cs).getD j default
      = ⟨pid + j, fid, partPath fid (idx + j), some (md5F (cs.getD j [])), true, idx + j⟩ := by
  intro cs
  induction cs with
  | nil => intro pid idx j h; simp at h
  | cons c cs ih =>
    intro pid idx j hj
    match j with
    | 0 =>
      show (⟨pid, fid, partPath fid idx, some (md5F c), true, idx⟩ : FilePart) = _
      simp [List.getD]
    | j+1 =>
      show (putSpecParts md5F fid (pid+1) (idx+1) cs).getD j default = _
      rw [ih (pid+1) (idx+1) j (by simpa using hj)]
      have h1 : pid + 1 + j = pid + (j + 1) := by omega
      have h2 : idx + 1 + j = idx + (j + 1) := by omega
      rw [h1, h2]
      simp [List.getD]

lemma putSpecParts_map_index (md5F : List Nat → String) (fid : Nat) :
    ∀ (cs : List (List Nat)) (pid idx : Nat),
    (putSpecParts md5F fid pid idx cs).map (fun p => p.index) = natRange idx cs.length := by
  intro cs
  induction cs with
  | nil => intro pid idx; rfl
  | cons c cs ih =>
    intro pid idx
    show idx :: (putSpecParts md5F fid (pid+1) (idx+1) cs).map (fun p => p.index) = _
    rw [ih]
    rfl

lemma putSpecParts_map_id (md5F : List Nat → String) (fid : Nat) :
    ∀ (cs : List (List Nat)) (pid idx : Nat),
    (putSpecParts md5F fid pid idx cs).map (fun p => p.id) = natRange pid cs.length := by
  intro cs
  induction cs with
  | nil => intro pid idx; rfl
  | cons c cs ih =>
    intro pid idx
    show pid :: (putSpecParts md5F fid (pid+1) (idx+1) cs).map (fun p => p.id) = _
    rw [ih]
    rfl

lemma natRange_eq_range' : ∀ (c a : Nat), natRange a c = List.range' a c := by
  intro c
  induction c with
  | zero => intro a; rfl
  | succ c ih =>
    intro a
    show a :: natRange (a+1) c = _
    rw [ih]
    rfl

lemma natRange_zero_eq_range (n : Nat) : natRange 0 n = List.range n := by
  rw [natRange_eq_range', List.range_eq_range']

lemma sliceMap_getD : ∀ (cs : List (List Nat)) (f : Nat → List Nat) (a : Nat),
    (∀ j, j < cs.length → f (a + j) = cs.getD j []) →
    sliceMap f a cs.length = cs := by
  intro cs
  induction cs with
  | nil => intro f a _; rfl
  | cons c cs ih =>
    intro f a hf
    show f a :: sliceMap f (a+1) cs.length = c :: cs
    have h0 := hf 0 (by simp)
    rw [Nat.add_zero] at h0
    have hc : f a = c := by rw [h0]; simp [List.getD]
    rw [hc]
    congr 1
    apply ih
    intro j hj
    have hs := hf (j+1) (by simpa using hj)
    have harith : a + (j + 1) = a + 1 + j := by omega
    rw [harith] at hs
    rw [hs]
    simp [List.getD]

/-! ### Claim theorems and witnesses -/

/-- C1: for every byte sequence stored by a put that completes with
`status=true`, a subsequent get of that file id writes to the
destination exactly the byte-for-byte concatenation of all parts in
increasing index order, equal to the original input — given that
decompression inverts compression (`zlib.decompress ∘ zlib.compress = id`),
the 1024-byte chunking, per-part compression on save and decompression
on load compose to the identity. -/
theorem put_get_roundtrip
    (compF decompF : List Nat → List Nat) (md5F : List Nat → String)
    (hcd : ∀ x, decompF (compF x) = x)
    (dir name : String) (content : List Nat)
    (oMem oLock e oMem2 e2 : Nat → Bool) (fuel fuel2 : Nat) (st : SysState)
    (hput : (putCmd compF md5F dir name content oMem oLock e fuel st).outcome
      = PutOutcome.completed)
    (hget : (getCmd decompF md5F dir oMem2 e2 fuel2
        (putCmd compF md5F dir name content oMem oLock e fuel st).st
        st.fileNext).outcome = GetOutcome.completed) :
    (getCmd decompF md5F dir oMem2 e2 fuel2
        (putCmd compF md5F dir name content oMem oLock e fuel st).st
        st.fileNext).written = content := by
  obtain ⟨m1, m2, m3, m4, m5, m6, m7, m8, m9⟩ :=
    putCmd_completed compF md5F dir name content oMem oLock e fuel st _ rfl hput
  have hlenps : (putSpecParts md5F st.fileNext st.partNext 0 (chunksOf content)).length
      = (chunksOf content).length := putSpecParts_length md5F st.fileNext _ _ _
  have hw := getCmd_completed decompF md5F dir oMem2 e2 fuel2
    (putCmd compF md5F dir name content oMem oLock e fuel st).st st.fileNext
    ⟨st.fileNext, name, true, (chunksOf content).length⟩
    (putSpecParts md5F st.fileNext st.partNext 0 (chunksOf content))
    (fun j => compF ((chunksOf content).getD j []))
    m1 rfl m3
    (by
      intro j hj
      rw [hlenps] at hj
      rw [putSpecParts_getD md5F st.fileNext (chunksOf content) st.partNext 0 j hj]
      show (putCmd compF md5F dir name content oMem oLock e fuel st).st.disk
        (dir ++ partPath st.fileNext (0 + j)) = _
      rw [Nat.zero_add]
      exact m8 j hj)
    (by
      intro j hj
      rw [hlenps] at hj
      rw [putSpecParts_getD md5F st.fileNext (chunksOf content) st.partNext 0 j hj]
      show some (md5F ((chunksOf content).getD j [])) = _
      rw [hcd])
    hget
  rw [hw, hlenps]
  have hslice : sliceMap (fun j => decompF (compF ((chunksOf content).getD j []))) 0
      (chunksOf content).length = chunksOf content := by
    apply sliceMap_getD
    intro j hj
    rw [Nat.zero_add, hcd]
  rw [hslice, concat_chunksOf]

/-- Witness for C1: putting the three-byte file `[1,2,3]` and getting
it back reproduces `[1,2,3]` exactly. -/
theorem put_get_roundtrip_witness :
    (getCmd dec0 md0 "p/" allT allT 3
      (putCmd comp0 md0 "p/" "f.txt" [1,2,3] allT allT allT 3 (initState 1000000)).st
      (initState 1000000).fileNext).written = [1, 2, 3] :=
  put_get_roundtrip comp0 dec0 md0 (fun _ => rfl) "p/" "f.txt" [1,2,3]
    allT allT allT allT allT 3 3 (initState 1000000) rfl rfl

lemma memCtrlTrace_invariant :
    ∀ (evts : List MemEvent) (limit u : Int), u < limit →
    (∀ ev, ev ∈ evts → 0 ≤ ev.amt) →
    ∀ x, x ∈ memCtrlTrace limit u evts → x < limit := by
  intro evts
  induction evts with
  | nil =>
    intro limit u h0 _ x hx
    have : x = u := by simpa [memCtrlTrace] using hx
    rw [this]
    exact h0
  | cons ev evs ih =>
    intro limit u h0 hamt x hx
    have hx2 : x = u ∨ x ∈ memCtrlTrace limit (memCtrlStep limit u ev) evs := by
      simpa [memCtrlTrace] using hx
    cases hx2 with
    | inl h => rw [h]; exact h0
    | inr h =>
      apply ih limit (memCtrlStep limit u ev) _ (fun q hq => hamt q (by simp [hq])) x h
      cases ev with
      | reserve a =>
        show (if u + a < limit then u + a else u) < limit
        by_cases hga : u + a < limit
        · rw [if_pos hga]; exact hga
        · rw [if_neg hga]; exact h0
      | release a =>
        have ha : 0 ≤ a := hamt (MemEvent.release a) (by simp)
        show u - a < limit
        have : MemEvent.amt (MemEvent.release a) = a := rfl
        omega

/-- C4: the admission controller grants a reservation only when
`usage + amount < limit` holds at that moment (the guarded step
`memCtrlStep`, mirroring the `wait_for` predicate and the guarded
`memory_usage += needed_memory` of run.py 124-131/217-224, both under
the monitor), so after every grant `usage < limit`, and along any
history of reserve/release events with nonnegative amounts the counter
stays strictly below the configured limit at all times.  The second
and third conjuncts tie the pipelines' `memGrant`/`memRelease` to the
event step. -/
theorem admission_never_oversubscribes
    (limit u : Int) (evts : List MemEvent)
    (h0 : u < limit) (hamt : ∀ ev, ev ∈ evts → 0 ≤ ev.amt) :
    (∀ x, x ∈ memCtrlTrace limit u evts → x < limit)
    ∧ (∀ st : SysState, memPred st = true →
        (memGrant st).memUsage
          = memCtrlStep st.memLimit st.memUsage (MemEvent.reserve (needed_memory : Int))
        ∧ (memGrant st).memUsage < st.memLimit)
    ∧ (∀ st : SysState, (memRelease st).memUsage
        = memCtrlStep st.memLimit st.memUsage (MemEvent.release (needed_memory : Int))) := by
  refine ⟨memCtrlTrace_invariant evts limit u h0 hamt, ?_, ?_⟩
  · intro st hp
    have hlt : st.memUsage + (needed_memory : Int) < st.memLimit := of_decide_eq_true hp
    constructor
    · show st.memUsage + (needed_memory : Int)
        = if st.memUsage + (needed_memory : Int) < st.memLimit
          then st.memUsage + (needed_memory : Int) else st.memUsage
      rw [if_pos hlt]
    · exact hlt
  · intro st
    rfl

/-- Witness for C4: along the history "reserve 60, reserve 60 (blocked,
limit 100), release 60" from usage 0, the third trace entry is below
the limit. -/
theorem admission_never_oversubscribes_witness :
    (memCtrlTrace 100 0 [MemEvent.reserve 60, MemEvent.reserve 60,
      MemEvent.release 60]).getD 2 0 < 100 :=
  (admission_never_oversubscribes 100 0
    [MemEvent.reserve 60, MemEvent.reserve 60, MemEvent.release 60]
    (by decide)
    (by
      intro ev hev
      simp only [List.mem_cons, List.not_mem_nil, or_false] at hev
      rcases hev with h | h | h <;> subst h <;> decide)).1
    ((memCtrlTrace 100 0 [MemEvent.reserve 60, MemEvent.reserve 60,
      MemEvent.release 60]).getD 2 0)
    (by decide)

/-- C6: whenever a put aborts on any failure after registering its file
(an unreadable source, a worker-pool exception, a part-id lock timeout
— every outcome other than completion and the pre-registration file-id
lock timeout), the `File` entry remains present in the file registry
with `status = false` and `part_count = 0`; a failed run never removes
the file and never sets `status = true`. -/
theorem put_failure_leaves_registered_incomplete
    (compF : List Nat → List Nat) (md5F : List Nat → String)
    (dir name : String) (content : List Nat) (oMem oLock e : Nat → Bool)
    (fuel : Nat) (st : SysState)
    (hnc : (putCmd compF md5F dir name content oMem oLock e fuel st).outcome
      ≠ PutOutcome.completed)
    (hnl : (putCmd compF md5F dir name content oMem oLock e fuel st).outcome
      ≠ PutOutcome.fileIdLockTimeout) :
    (putCmd compF md5F dir name content oMem oLock e fuel st).st.files st.fileNext
      = some ⟨st.fileNext, name, false, 0⟩ :=
  (putCmd_state compF md5F dir name content oMem oLock e fuel st).1 hnc hnl

/-- Witness for C6: a put whose source open raises leaves file id 0
registered with `status = false`. -/
theorem put_failure_leaves_registered_incomplete_witness :
    (putCmd comp0 md0 "d" "f" [5] allT allT (fun _ => false) 3
      (initState 1000000)).st.files 0 = some ⟨0, "f", false, 0⟩ :=
  put_failure_leaves_registered_incomplete comp0 md0 "d" "f" [5] allT allT (fun _ => false) 3
    (initState 1000000) (by decide) (by decide)

/-- C3 counterexample: an execution in which the part-id lock times out
inside a reserved batch (run.py 137-138) and the subsequent
acquisition of the memory monitor needed to roll the reservation back
(line 139) also times out: the put returns ("Put: Could not release
locked memory.") with its 10240-byte reservation still held, so the
claim that every exit path releases every reservation before the
invocation returns is false. -/
theorem put_reservation_leak_cex :
    (putCmd comp0 md0 "d" "f" [5] oMemC3 oLockC3 allT 3 (initState 1000000)).outcome
      = PutOutcome.releaseFailLeak
    ∧ (putCmd comp0 md0 "d" "f" [5] oMemC3 oLockC3 allT 3 (initState 1000000)).st.memUsage
      = 10240
    ∧ (initState 1000000).memUsage = 0 :=
  ⟨rfl, rfl, rfl⟩

/-- C3 (amended): provided every acquisition of the memory-condition
monitor succeeds within its bound, every exit path of a put or get
invocation — normal completion, integrity failure, exception, or a
part-id lock timeout inside a reserved batch — has released every
reservation it acquired: the admission counter is restored to its
entry value. -/
theorem put_get_release_on_all_exits :
    (∀ (compF : List Nat → List Nat) (md5F : List Nat → String)
      (dir name : String) (content : List Nat) (oMem oLock e : Nat → Bool)
      (fuel : Nat) (st : SysState), (∀ n, oMem n = true) →
      (putCmd compF md5F dir name content oMem oLock e fuel st).st.memUsage = st.memUsage)
    ∧ (∀ (decompF : List Nat → List Nat) (md5F : List Nat → String)
      (dir : String) (oMem e : Nat → Bool) (fuel : Nat) (st : SysState) (fid : Nat),
      (∀ n, oMem n = true) →
      (getCmd decompF md5F dir oMem e fuel st fid).st.memUsage = st.memUsage) :=
  ⟨fun compF md5F dir name content oMem oLock e fuel st h =>
      putCmd_memUsage compF md5F dir name content oMem oLock e fuel st h,
    fun decompF md5F dir oMem e fuel st fid h =>
      getCmd_memUsage decompF md5F dir oMem e fuel st fid h⟩

/-- Witness for C3 (amended): a put that aborts on a part-id lock
timeout (lock oracle true only at point 0) and a get both restore the
admission counter to 0 when the monitor acquisitions succeed. -/
theorem put_get_release_on_all_exits_witness :
    (putCmd comp0 md0 "d" "f" [5] allT (fun n => n == 0) allT 3
      (initState 1000000)).st.memUsage = 0
    ∧ (getCmd dec0 md0 "d" allT allT 3 (initState 1000000) 0).st.memUsage = 0 :=
  ⟨by
    rw [put_get_release_on_all_exits.1 comp0 md0 "d" "f" [5] allT (fun n => n == 0) allT 3
      (initState 1000000) (fun n => rfl)]
    rfl,
   by
    rw [put_get_release_on_all_exits.2 dec0 md0 "d" allT allT 3
      (initState 1000000) 0 (fun n => rfl)]
    rfl⟩

/-- C7: for every put that completes successfully, the file's stored
part sequence is exactly `putSpecParts` for the chunking of its
content, whose index values are exactly `0 .. part_count - 1`
(`List.range part_count`) — contiguous, without gaps or duplicates, in
sequence order — and the recorded `part_count` equals the length of
the part sequence at completion. -/
theorem put_part_indices_contiguous
    (compF : List Nat → List Nat) (md5F : List Nat → String)
    (dir name : String) (content : List Nat) (oMem oLock e : Nat → Bool)
    (fuel : Nat) (st : SysState)
    (hput : (putCmd compF md5F dir name content oMem oLock e fuel st).outcome
      = PutOutcome.completed) :
    (putCmd compF md5F dir name content oMem oLock e fuel st).st.files st.fileNext
      = some ⟨st.fileNext, name, true, (chunksOf content).length⟩
    ∧ (putCmd compF md5F dir name content oMem oLock e fuel st).st.parts st.fileNext
      = some (putSpecParts md5F st.fileNext st.partNext 0 (chunksOf content))
    ∧ (putSpecParts md5F st.fileNext st.partNext 0 (chunksOf content)).map
        (fun p => p.index) = List.range (chunksOf content).length
    ∧ (putSpecParts md5F st.fileNext st.partNext 0 (chunksOf content)).length
      = (chunksOf content).length := by
  obtain ⟨m1, m2, m3, m4, m5, m6, m7, m8, m9⟩ :=
    putCmd_completed compF md5F dir name content oMem oLock e fuel st _ rfl hput
  refine ⟨m1, m3, ?_, putSpecParts_length md5F st.fileNext _ _ _⟩
  rw [putSpecParts_map_index, natRange_zero_eq_range]

/-- Witness for C7: after putting `[1,2,3]` (one chunk), the stored
sequence's indices are exactly `List.range 1`. -/
theorem put_part_indices_contiguous_witness :
    (putCmd comp0 md0 "d" "f" [1,2,3] allT allT allT 3 (initState 1000000)).st.parts 0
      = some (putSpecParts md0 0 0 0 (chunksOf [1,2,3]))
    ∧ (putSpecParts md0 0 0 0 (chunksOf [1,2,3])).map (fun p => p.index) = List.range 1 := by
  have h := put_part_indices_contiguous comp0 md0 "d" "f" [1,2,3] allT allT allT 3
    (initState 1000000) rfl
  exact ⟨h.2.1, h.2.2.1⟩

/-- C8 counterexample: a completed put with parts directory string "d"
stores its part at the direct concatenation `"d0_0.PART"` and nothing
at the '/'-joined path `"d/0_0.PART"`: run.py line 162 computes
`self.parts_directory + file_part.path` with no separator, so the
claim that the full path is the parts directory followed by `'/'`
followed by `<parent_file_id>_<index>.PART` is false. -/
theorem part_path_no_separator_cex :
    (putCmd comp0 md0 "d" "f" [5] allT allT allT 3 (initState 1000000)).outcome
      = PutOutcome.completed
    ∧ (putCmd comp0 md0 "d" "f" [5] allT allT allT 3
        (initState 1000000)).st.disk ("d" ++ "/" ++ "0_0.PART") = none
    ∧ (putCmd comp0 md0 "d" "f" [5] allT allT allT 3
        (initState 1000000)).st.disk ("d" ++ "0_0.PART") = some (comp0 [5]) :=
  ⟨rfl, rfl, rfl⟩

/-- C8 (amended): every part written by a completed put is stored as a
single file whose full path is the configured parts-directory string
concatenated directly (no separator inserted) with
`<parent_file_id>_<index>.PART`, whose contents are the compressed
bytes of that part, and whose recorded hash is the digest of the
uncompressed bytes. -/
theorem part_storage_layout
    (compF : List Nat → List Nat) (md5F : List Nat → String)
    (dir name : String) (content : List Nat) (oMem oLock e : Nat → Bool)
    (fuel : Nat) (st : SysState)
    (hput : (putCmd compF md5F dir name content oMem oLock e fuel st).outcome
      = PutOutcome.completed)
    (jj : Nat) (hjj : jj < (chunksOf content).length) :
    (putCmd compF md5F dir name content oMem oLock e fuel st).st.parts st.fileNext
      = some (putSpecParts md5F st.fileNext st.partNext 0 (chunksOf content))
    ∧ ((putSpecParts md5F st.fileNext st.partNext 0 (chunksOf content)).getD jj
        default).path = partPath st.fileNext jj
    ∧ (putCmd compF md5F dir name content oMem oLock e fuel st).st.disk
        (dir ++ partPath st.fileNext jj) = some (compF ((chunksOf content).getD jj []))
    ∧ ((putSpecParts md5F st.fileNext st.partNext 0 (chunksOf content)).getD jj
        default).hash = some (md5F ((chunksOf content).getD jj [])) := by
  obtain ⟨m1, m2, m3, m4, m5, m6, m7, m8, m9⟩ :=
    putCmd_completed compF md5F dir name content oMem oLock e fuel st _ rfl hput
  refine ⟨m3, ?_, m8 jj hjj, ?_⟩
  · rw [putSpecParts_getD md5F st.fileNext (chunksOf content) st.partNext 0 jj hjj]
    show partPath st.fileNext (0 + jj) = _
    rw [Nat.zero_add]
  · rw [putSpecParts_getD md5F st.fileNext (chunksOf content) st.partNext 0 jj hjj]

/-- Witness for C8 (amended): the single part of `[5]` lands at
`"d" ++ partPath 0 0` holding `comp0 [5]`, with hash `md0 [5]`. -/
theorem part_storage_layout_witness :
    (putCmd comp0 md0 "d" "f" [5] allT allT allT 3 (initState 1000000)).st.disk
        ("d" ++ partPath 0 0) = some (comp0 [5])
    ∧ ((putSpecParts md0 0 0 0 (chunksOf [5])).getD 0 default).hash = some (md0 [5]) := by
  have h := part_storage_layout comp0 md0 "d" "f" [5] allT allT allT 3 (initState 1000000)
    rfl 0 (by decide)
  exact ⟨h.2.2.1, h.2.2.2⟩

/-- C9: every put that runs to normal completion consumes exactly
`part_count + 1` ids from the part-id allocator: the parts receive the
contiguous block of ids starting at the allocator's entry value
(`natRange st.partNext n`), and the allocator ends at
`st.partNext + n + 1` — one id was allocated for the final read that
returned end-of-stream and is attached to no part.  Consequently, a
second put completing immediately afterwards starts its part ids at
`st.partNext + n + 1`, so part ids of consecutively stored files are
not contiguous (id `st.partNext + n` is skipped). -/
theorem put_consumes_extra_part_id
    (compF : List Nat → List Nat) (md5F : List Nat → String)
    (dir name : String) (content : List Nat) (oMem oLock e : Nat → Bool)
    (fuel : Nat) (st : SysState)
    (hput : (putCmd compF md5F dir name content oMem oLock e fuel st).outcome
      = PutOutcome.completed) :
    (putCmd compF md5F dir name content oMem oLock e fuel st).st.partNext
      = st.partNext + (chunksOf content).length + 1
    ∧ (putCmd compF md5F dir name content oMem oLock e fuel st).st.parts st.fileNext
      = some (putSpecParts md5F st.fileNext st.partNext 0 (chunksOf content))
    ∧ (putSpecParts md5F st.fileNext st.partNext 0 (chunksOf content)).map (fun p => p.id)
      = natRange st.partNext (chunksOf content).length
    ∧ (∀ (name2 : String) (content2 : List Nat) (oMem2 oLock2 e2 : Nat → Bool)
        (fuel2 : Nat),
        (putCmd compF md5F dir name2 content2 oMem2 oLock2 e2 fuel2
          (putCmd compF md5F dir name content oMem oLock e fuel st).st).outcome
          = PutOutcome.completed →
        (putCmd compF md5F dir name2 content2 oMem2 oLock2 e2 fuel2
          (putCmd compF md5F dir name content oMem oLock e fuel st).st).st.parts
          (putCmd compF md5F dir name content oMem oLock e fuel st).st.fileNext
          = some (putSpecParts md5F
              (putCmd compF md5F dir name content oMem oLock e fuel st).st.fileNext
              (st.partNext + (chunksOf content).length + 1) 0 (chunksOf content2))) := by
  obtain ⟨m1, m2, m3, m4, m5, m6, m7, m8, m9⟩ :=
    putCmd_completed compF md5F dir name content oMem oLock e fuel st _ rfl hput
  refine ⟨m5, m3, putSpecParts_map_id md5F st.fileNext _ _ _, ?_⟩
  intro name2 content2 oMem2 oLock2 e2 fuel2 hput2
  obtain ⟨n1, n2, n3, n4, n5, n6, n7, n8, n9⟩ :=
    putCmd_completed compF md5F dir name2 content2 oMem2 oLock2 e2 fuel2
      (putCmd compF md5F dir name content oMem oLock e fuel st).st _ rfl hput2
  rw [n3, m5]

/-- Witness for C9: putting the one-chunk file `[5]` from a fresh state
advances the part-id allocator from 0 to 2 (one id for the part, one
for the end-of-stream read), and the stored part carries id 0. -/
theorem put_consumes_extra_part_id_witness :
    (putCmd comp0 md0 "d" "f" [5] allT allT allT 3 (initState 1000000)).st.partNext = 2
    ∧ (putSpecParts md0 0 0 0 (chunksOf [5])).map (fun p => p.id) = natRange 0 1 := by
  have h := put_consumes_extra_part_id comp0 md0 "d" "f" [5] allT allT allT 3
    (initState 1000000) rfl
  exact ⟨h.1, h.2.2.1⟩

/-- C2 counterexample: in `stC2` the file has two parts; part 0's file
exists on disk (its removal succeeds) and part 1's file is missing
(its removal fails).  After the delete, part 0's disk file is gone
(the removal did succeed), yet the surviving part-sequence entry is
part 0's own entry — part 1's entry, whose removal failed, was the one
erased.  run.py line 298 deletes position
`index*batch_size + len(result) - i - 1`, the mirror of item `i`
within the batch, so the claim that each successful removal erases
that item's own entry (and only failed items' entries remain) is
false. -/
theorem delete_erase_mirrored_cex :
    stC2.disk ("d" ++ partPath 0 0) = some [9]
    ∧ stC2.disk ("d" ++ partPath 0 1) = none
    ∧ (deleteCmd "d" 0 stC2).2.disk ("d" ++ partPath 0 0) = none
    ∧ (deleteCmd "d" 0 stC2).2.parts 0 = some [mkFilePart 100 0 (some "h0") false 0] :=
  ⟨rfl, rfl, rfl, rfl⟩

/-- C2 (amended): during delete, the result walk erases, for the
`i`-th work item of a batch whose removal succeeds, the sequence entry
at the mirrored position within the batch (offset `L - 1 - i` from the
batch start, `L` the batch length): the walk `deleteEraseFold` equals
`keepAfter`, which consumes the batch slice from its last entry
backwards, dropping one entry per success and keeping one per failure.
The entries left in place are as many as the failures but sit at the
mirrored positions of the failures, not necessarily the failed items'
own entries; when every removal in the batch succeeds the whole slice
is erased. -/
theorem delete_erase_mirrored :
    (∀ (rs : List Bool) (A s B2 : List FilePart), s.length = rs.length →
      deleteEraseFold (A ++ s ++ B2) (A.length + s.length - 1) rs
        = A ++ keepAfter s rs ++ B2)
    ∧ (∀ s : List FilePart, keepAfter s (List.replicate s.length true) = []) :=
  ⟨deleteEraseFold_keepAfter, keepAfter_all_true⟩

/-- Witness for C2 (amended): on a two-entry batch with results
`[true, false]` the erase walk keeps the first entry — the mirrored
survivor — as `keepAfter` predicts. -/
theorem delete_erase_mirrored_witness :
    deleteEraseFold [mkFilePart 100 0 none true 0, mkFilePart 101 0 none true 1] 1
        [true, false]
      = keepAfter [mkFilePart 100 0 none true 0, mkFilePart 101 0 none true 1]
        [true, false] := by
  have h := delete_erase_mirrored.1 [true, false] []
    [mkFilePart 100 0 none true 0, mkFilePart 101 0 none true 1] [] rfl
  simpa using h

/-- C5 counterexample: in `stC5` the stored part's bytes do not match
the recorded digest, and the memory-monitor acquisition on the abort
path (run.py line 238) times out: the get aborts ("Get: Could not
release locked memory.") WITHOUT releasing the batch's reservation
(the counter stays at 10240), so the claim that a digest mismatch
makes the get release the batch's reservation and abort is false as
stated — only the abort and the absence of further writes hold. -/
theorem get_mismatch_leak_cex :
    (getCmd dec0 md0 "d" oMemC5 allT 3 stC5 0).outcome = GetOutcome.releaseFailLeak
    ∧ (getCmd dec0 md0 "d" oMemC5 allT 3 stC5 0).written = []
    ∧ (getCmd dec0 md0 "d" oMemC5 allT 3 stC5 0).st.memUsage = 10240
    ∧ stC5.memUsage = 0
    ∧ some (md0 (dec0 [7])) ≠ some "zz" :=
  ⟨rfl, rfl, rfl, rfl, by decide⟩

/-- C5 (amended): if, during a get whose memory-monitor acquisitions
succeed, the part at position `j` is the first whose recomputed digest
does not match its recorded digest, then the get aborts with a
mismatch, the bytes written to the destination are exactly the
decompressed parts `0 .. j-1` (no further bytes for the affected batch
and all later batches), and the batch's reservation has been released
(the admission counter is restored). -/
theorem get_mismatch_abort
    (decompF : List Nat → List Nat) (md5F : List Nat → String) (dir : String)
    (oMem e : Nat → Bool) (fuel : Nat) (st : SysState) (fid : Nat)
    (f : File) (ps : List FilePart) (B : Nat → List Nat) (j : Nat)
    (hMem : ∀ n, oMem n = true) (hE : ∀ n, e n = true)
    (hf : st.files fid = some f) (hstat : f.status = true)
    (hps : st.parts fid = some ps) (hj : j < ps.length)
    (hdisk : ∀ jq, jq < ps.length →
      st.disk (dir ++ (ps.getD jq default).path) = some (B jq))
    (hintact : ∀ jq, jq < j → (ps.getD jq default).hash = some (md5F (decompF (B jq))))
    (hbad : (ps.getD j default).hash ≠ some (md5F (decompF (B j))))
    (hne : (getCmd decompF md5F dir oMem e fuel st fid).outcome ≠ GetOutcome.outOfFuel) :
    (getCmd decompF md5F dir oMem e fuel st fid).outcome = GetOutcome.mismatchAbort
    ∧ (getCmd decompF md5F dir oMem e fuel st fid).written
        = concatL (sliceMap (fun jq => decompF (B jq)) 0 j)
    ∧ (getCmd decompF md5F dir oMem e fuel st fid).st.memUsage = st.memUsage :=
  getCmd_mismatch decompF md5F dir oMem e fuel st fid f ps B j hMem hE hf hstat hps hj
    hdisk hintact hbad hne

/-- Witness for C5 (amended): getting the corrupted one-part file of
`stC5` under all-succeeding oracles aborts with a mismatch, writes no
bytes, and restores the admission counter to 0. -/
theorem get_mismatch_abort_witness :
    (getCmd dec0 md0 "d" allT allT 3 stC5 0).outcome = GetOutcome.mismatchAbort
    ∧ (getCmd dec0 md0 "d" allT allT 3 stC5 0).written = []
    ∧ (getCmd dec0 md0 "d" allT allT 3 stC5 0).st.memUsage = 0 := by
  have h := get_mismatch_abort dec0 md0 "d" allT allT 3 stC5 0
    ⟨0, "f", true, 1⟩ [mkFilePart 0 0 (some "zz") true 0] (fun _ => [7]) 0
    (fun n => rfl) (fun n => rfl) rfl rfl rfl (by decide)
    (fun jq hjq => by
      match jq, hjq with
      | 0, _ => rfl)
    (fun jq hjq => absurd hjq (by omega))
    (by decide)
    (by decide)
  refine ⟨h.1, ?_, ?_⟩
  · rw [h.2.1]
    rfl
  · rw [h.2.2]
    rfl

/-- C10: after a delete completes, only the file-registry entry for the
file id is removed; the part registry still contains that file id as a
key, mapped to the residual part sequence, and entries for other ids
are untouched.  The part-registry key is never deleted by any
operation: a put only adds or overwrites part-registry entries with
present values, and a get leaves the part registry unchanged. -/
theorem delete_keeps_part_registry_key :
    (∀ (dir : String) (fid : Nat) (st : SysState) (f : File) (ps : List FilePart),
      st.files fid = some f → f.status = true → st.parts fid = some ps →
      (deleteCmd dir fid st).1 = DelOutcome.completed
      ∧ (deleteCmd dir fid st).2.files fid = none
      ∧ ((deleteCmd dir fid st).2.parts fid).isSome
      ∧ (∀ g, g ≠ fid → (deleteCmd dir fid st).2.files g = st.files g)
      ∧ (∀ g, g ≠ fid → (deleteCmd dir fid st).2.parts g = st.parts g))
    ∧ (∀ (compF : List Nat → List Nat) (md5F : List Nat → String)
        (dir name : String) (content : List Nat) (oMem oLock e : Nat → Bool)
        (fuel : Nat) (st : SysState) (g : Nat),
        (st.parts g).isSome →
        ((putCmd compF md5F dir name content oMem oLock e fuel st).st.parts g).isSome)
    ∧ (∀ (decompF : List Nat → List Nat) (md5F : List Nat → String)
        (dir : String) (oMem e : Nat → Bool) (fuel : Nat) (st : SysState) (fid : Nat),
        (getCmd decompF md5F dir oMem e fuel st fid).st.parts = st.parts) :=
  ⟨fun dir fid st f ps hf hstat hps =>
      deleteCmd_completed_facts dir fid st f ps hf hstat hps,
    fun compF md5F dir name content oMem oLock e fuel st g hg =>
      (putCmd_state compF md5F dir name content oMem oLock e fuel st).2 g hg,
    fun decompF md5F dir oMem e fuel st fid =>
      (getCmd_state_frame decompF md5F dir oMem e fuel st fid).1⟩

/-- Witness for C10: deleting file 0 of `stC2` removes it from the file
registry while the part-registry key 0 survives (mapped to the
residual sequence). -/
theorem delete_keeps_part_registry_key_witness :
    (deleteCmd "d" 0 stC2).2.files 0 = none
    ∧ ((deleteCmd "d" 0 stC2).2.parts 0).isSome := by
  have h := delete_keeps_part_registry_key.1 "d" 0 stC2 ⟨0, "f", true, 2⟩
    [mkFilePart 100 0 (some "h0") true 0, mkFilePart 101 0 (some "h1") true 1] rfl rfl rfl
  exact ⟨h.2.1, h.2.2.1⟩

end FSS
